import Mathlib

/-
Verification of the agntcy/dir storage and discovery engine.

The development shallowly embeds:
  * the canonical record codec (api/core/v1: Record.CanonicalMarshal /
    CanonicalUnmarshal) over a JSON tree model,
  * OASF version detection and loading (cli/types: DetectOASFVersion /
    LoadOASFFromReader),
  * the OCI discovery-tag planner (server/store/oci/tags.go:
    normalizeTagForOCI, generateTagsFromMetadata, removeDuplicateTags,
    pushManifestWithTags),
  * a denotational model of the client streaming primitives
    (client/streaming: PushStream, PullStream, LookupStream, DeleteStream)
    and the scalar / batch client wrappers built on them.

Go strings are modelled as lists of characters (runes); where byte counts
matter the surrounding construction guarantees the string is ASCII so that
rune count and byte count agree, and this is noted at the definition.
-/

namespace DirSpec

/-- Go string modelled as a list of runes. -/
abbrev GoStr := List Char

/-- JSON value tree: the `interface\x7b\x7d` produced by Go's
`encoding/json.Unmarshal` and consumed by `encoding/json.Marshal`.
Numbers are restricted to naturals: the record schema carries only
non-negative integers (skill ids) and the spec forbids floating point. -/
inductive Json where
  | null : Json
  | bool (b : Bool) : Json
  | num (n : Nat) : Json
  | str (s : GoStr) : Json
  | arr (items : List Json) : Json
  | obj (fields : List (GoStr × Json)) : Json

/-- Double-quote character. -/
def qChar : Char := Char.ofNat 34

/-- Backslash character. -/
def bsChar : Char := Char.ofNat 92

/-- Opening curly bracket character. -/
def obChar : Char := Char.ofNat 123

/-- Closing curly bracket character. -/
def cbChar : Char := Char.ofNat 125

/-- JSON string escaping as performed by Go's `encoding/json.Marshal`
(HTML-escaping enabled): quote, backslash, control characters and the
HTML-sensitive characters are escaped, everything else passes through. -/
def escapeChar (c : Char) : GoStr :=
  if c = qChar then [bsChar, qChar]
  else if c = bsChar then [bsChar, bsChar]
  else if c = Char.ofNat 10 then [bsChar, 'n']
  else if c = Char.ofNat 13 then [bsChar, 'r']
  else if c = Char.ofNat 9 then [bsChar, 't']
  else if c.toNat < 32 ∨ c = '<' ∨ c = '>' ∨ c = '&' then
    [bsChar, 'u', '0', '0',
      Nat.digitChar (c.toNat / 16), Nat.digitChar (c.toNat % 16)]
  else [c]

/-- Escape a whole string for JSON output. -/
def escapeStr (s : GoStr) : GoStr := s.flatMap escapeChar

/-- Serialized JSON string literal, including the surrounding quotes. -/
def serializeStrLit (s : GoStr) : GoStr := qChar :: escapeStr s ++ [qChar]

/-- Comma-join a list of already serialized fragments. -/
def joinComma : List GoStr → GoStr
  | [] => []
  | [x] => x
  | x :: y :: rest => x ++ ',' :: joinComma (y :: rest)

mutual
/-- Compact JSON serialization: Go's `encoding/json.Marshal` output shape
(no whitespace, keys emitted in the order they appear in the tree). -/
def serialize : Json → GoStr
  | .null => "null".toList
  | .bool true => "true".toList
  | .bool false => "false".toList
  | .num n => Nat.toDigits 10 n
  | .str s => serializeStrLit s
  | .arr items => '[' :: joinComma (serializeList items) ++ [']']
  | .obj fields => obChar :: joinComma (serializePairs fields) ++ [cbChar]

/-- Serialize every element of a JSON array. -/
def serializeList : List Json → List GoStr
  | [] => []
  | j :: rest => serialize j :: serializeList rest

/-- Serialize every `key:value` member of a JSON object. -/
def serializePairs : List (GoStr × Json) → List GoStr
  | [] => []
  | (k, v) :: rest => (serializeStrLit k ++ ':' :: serialize v) :: serializePairs rest
end

/-- Ordering of object members by key, lexicographically by code point;
UTF-8 byte order (which Go's map-key sort uses) coincides with code-point
order. -/
def keyPairLe (a b : GoStr × Json) : Prop := a.1 ≤ b.1

instance : DecidableRel keyPairLe := fun a b => by
  unfold keyPairLe; infer_instance

instance : IsTotal (GoStr × Json) keyPairLe :=
  ⟨fun a b => le_total a.1 b.1⟩

instance : IsTrans (GoStr × Json) keyPairLe :=
  ⟨fun _ _ _ h h' => le_trans h h'⟩

mutual
/-- Step 2/3 of `Record.CanonicalMarshal`: re-serialization of the parsed
tree by `encoding/json.Marshal`, which emits every object with its keys
sorted lexicographically.  Arrays keep their order. -/
def sortKeys : Json → Json
  | .null => .null
  | .bool b => .bool b
  | .num n => .num n
  | .str s => .str s
  | .arr items => .arr (sortKeysList items)
  | .obj fields => .obj (List.insertionSort keyPairLe (sortKeysPairs fields))

/-- Recursively sort keys inside every element of a JSON array. -/
def sortKeysList : List Json → List Json
  | [] => []
  | j :: rest => sortKeys j :: sortKeysList rest

/-- Recursively sort keys inside every member value of a JSON object. -/
def sortKeysPairs : List (GoStr × Json) → List (GoStr × Json)
  | [] => []
  | (k, v) :: rest => (k, sortKeys v) :: sortKeysPairs rest
end

/-! ## Record data model

Modelled from the spec: the OASF object schemas (objects v1/v2/v3) are not
part of the sources here (only their callers and tests are), so the three
variants share the common read-only projection the spec gives them:
name, version, skills, extensions, locators, annotations, signature,
plus the `schema_version` and `description` fields evidenced by the tests.
Extension `data` is opaque in the spec and is modelled as an opaque string
payload. -/

/-- Skill entry: ordered sequence element with all-optional fields
(spec: `\x7b category?, class?, id?, name? \x7d`).  The JSON key for
`classVal` is `class` (a Lean keyword, hence the field name). -/
structure Skill where
  category : Option GoStr
  classVal : Option GoStr
  id : Option Nat
  name : Option GoStr
deriving DecidableEq

/-- Extension entry (spec: `\x7b name, version, data? \x7d`). -/
structure Extension where
  name : GoStr
  version : GoStr
  data : Option GoStr
deriving DecidableEq

/-- Locator entry (spec: `\x7b type, url \x7d`). -/
structure Locator where
  type : GoStr
  url : GoStr
deriving DecidableEq

/-- Common projection payload of a record variant. -/
structure RecordPayload where
  name : GoStr
  version : GoStr
  schemaVersion : GoStr
  description : GoStr
  skills : List Skill
  extensions : List Extension
  locators : List Locator
  annotations : List (GoStr × GoStr)
  signature : Option GoStr
deriving DecidableEq

/-- The oneof `data` of `corev1.Record`: exactly one of the three schema
variants (`Record_V1`, `Record_V2`, `Record_V3`). -/
inductive RecordData where
  | v1 (payload : RecordPayload)
  | v2 (payload : RecordPayload)
  | v3 (payload : RecordPayload)
deriving DecidableEq

/-- A `corev1.Record`: a possibly-unset oneof over the three variants.
A nil `*Record` pointer is modelled separately as `Option Record`. -/
structure Record where
  data : Option RecordData
deriving DecidableEq

/-! ## Canonical marshaling (api/core/v1 record.CanonicalMarshal)

Step 1 (protojson with UseProtoNames, UseEnumNumbers, EmitUnpopulated=false)
is modelled by `recordJson`: unset/empty fields are omitted, explicitly-set
optional fields are kept.  protojson does not guarantee a field order, and
the proto field numbers are not in the sources; the model emits fields in
lexicographic key order, which is harmless because step 2 sorts every
object's keys anyway.  Steps 2 and 3 (parse into a generic tree, re-marshal
with `encoding/json`, which sorts map keys) are modelled by `sortKeys`
followed by `serialize`. -/

/-- JSON object key constants of the payload. -/
def kAnnotations : GoStr := "annotations".toList

/-- Key `description`. -/
def kDescription : GoStr := "description".toList

/-- Key `extensions`. -/
def kExtensions : GoStr := "extensions".toList

/-- Key `locators`. -/
def kLocators : GoStr := "locators".toList

/-- Key `name`. -/
def kName : GoStr := "name".toList

/-- Key `schema_version` (proto name, snake case). -/
def kSchemaVersion : GoStr := "schema_version".toList

/-- Key `signature`. -/
def kSignature : GoStr := "signature".toList

/-- Key `skills`. -/
def kSkills : GoStr := "skills".toList

/-- Key `version`. -/
def kVersion : GoStr := "version".toList

/-- Key `category`. -/
def kCategory : GoStr := "category".toList

/-- Key `class`. -/
def kClass : GoStr := "class".toList

/-- Key `id`. -/
def kId : GoStr := "id".toList

/-- Key `data`. -/
def kData : GoStr := "data".toList

/-- Key `type`. -/
def kType : GoStr := "type".toList

/-- Key `url`. -/
def kUrl : GoStr := "url".toList

/-- Oneof key `v1`. -/
def kV1 : GoStr := "v1".toList

/-- Oneof key `v2`. -/
def kV2 : GoStr := "v2".toList

/-- Oneof key `v3`. -/
def kV3 : GoStr := "v3".toList

/-- Emit a plain (proto3 implicit presence) string field: omitted when
empty, per EmitUnpopulated=false. -/
def strField (k : GoStr) (v : GoStr) : List (GoStr × Json) :=
  if v = [] then [] else [(k, .str v)]

/-- Emit an explicit-presence optional string field: emitted iff set. -/
def optStrField (k : GoStr) (v : Option GoStr) : List (GoStr × Json) :=
  match v with
  | none => []
  | some s => [(k, .str s)]

/-- Emit an explicit-presence optional integer field: emitted iff set. -/
def optNumField (k : GoStr) (v : Option Nat) : List (GoStr × Json) :=
  match v with
  | none => []
  | some n => [(k, .num n)]

/-- Annotations map as a JSON object member list (entry order as stored). -/
def annJson (l : List (GoStr × GoStr)) : List (GoStr × Json) :=
  l.map (fun kv => (kv.1, Json.str kv.2))

/-- Fields of a skill object, in lexicographic key order. -/
def skillFields (s : Skill) : List (GoStr × Json) :=
  optStrField kCategory s.category ++
    (optStrField kClass s.classVal ++
      (optNumField kId s.id ++ optStrField kName s.name))

/-- Skill as JSON. -/
def skillJson (s : Skill) : Json := .obj (skillFields s)

/-- Fields of an extension object, in lexicographic key order. -/
def extensionFields (e : Extension) : List (GoStr × Json) :=
  optStrField kData e.data ++ (strField kName e.name ++ strField kVersion e.version)

/-- Extension as JSON. -/
def extensionJson (e : Extension) : Json := .obj (extensionFields e)

/-- Fields of a locator object, in lexicographic key order. -/
def locatorFields (l : Locator) : List (GoStr × Json) :=
  strField kType l.type ++ strField kUrl l.url

/-- Locator as JSON. -/
def locatorJson (l : Locator) : Json := .obj (locatorFields l)

/-- Fields of the payload object, in lexicographic key order; empty lists
and empty maps are omitted per EmitUnpopulated=false. -/
def payloadFields (p : RecordPayload) : List (GoStr × Json) :=
  (if p.annotations = [] then [] else [(kAnnotations, .obj (annJson p.annotations))]) ++
    (strField kDescription p.description ++
      ((if p.extensions = [] then [] else
          [(kExtensions, .arr (p.extensions.map extensionJson))]) ++
        ((if p.locators = [] then [] else
            [(kLocators, .arr (p.locators.map locatorJson))]) ++
          (strField kName p.name ++
            (strField kSchemaVersion p.schemaVersion ++
              (optStrField kSignature p.signature ++
                ((if p.skills = [] then [] else
                    [(kSkills, .arr (p.skills.map skillJson))]) ++
                  strField kVersion p.version)))))))

/-- Payload as JSON. -/
def payloadJson (p : RecordPayload) : Json := .obj (payloadFields p)

/-- Step 1 of `Record.CanonicalMarshal`: the protojson tree of a record.
An unset oneof marshals to the empty object. -/
def recordJson (r : Record) : Json :=
  match r.data with
  | none => .obj []
  | some (.v1 p) => .obj [(kV1, payloadJson p)]
  | some (.v2 p) => .obj [(kV2, payloadJson p)]
  | some (.v3 p) => .obj [(kV3, payloadJson p)]

/-- Canonical JSON tree of a record: protojson then key sorting. -/
def CanonicalMarshalTree (r : Record) : Json := sortKeys (recordJson r)

/-- Record.CanonicalMarshal.  A nil `*Record` receiver returns nil bytes and
no error; otherwise the two-step canonical serialization runs.  protojson
marshaling cannot fail on a well-typed in-memory record, so the model is
total (`none` would model an error return). -/
def CanonicalMarshal : Option Record → Option GoStr
  | none => some []
  | some r => some (serialize (CanonicalMarshalTree r))

/-! ## Canonical unmarshaling (CanonicalUnmarshal)

protojson.Unmarshal with AllowPartial=false, DiscardUnknown=false, modelled
at the JSON-tree level (the byte-level JSON parser is elided: unmarshaling
is applied to the parsed tree of the canonical bytes).  Unknown fields are
rejected; absent fields take their zero value; explicit-presence fields are
set iff present. -/

/-- First-match association lookup among JSON object members. -/
def assocFind (k : GoStr) : List (GoStr × Json) → Option Json
  | [] => none
  | (k2, v) :: rest => if k = k2 then some v else assocFind k rest

/-- Read a plain string field: absent means empty. -/
def parseStrF : Option Json → Option GoStr
  | none => some []
  | some (.str s) => some s
  | some _ => none

/-- Read an explicit-presence optional string field. -/
def parseOptStrF : Option Json → Option (Option GoStr)
  | none => some none
  | some (.str s) => some (some s)
  | some _ => none

/-- Read an explicit-presence optional integer field. -/
def parseOptNumF : Option Json → Option (Option Nat)
  | none => some none
  | some (.num n) => some (some n)
  | some _ => none

/-- Read one annotations entry: values must be strings. -/
def parseAnnEntry : GoStr × Json → Option (GoStr × GoStr)
  | (k, .str s) => some (k, s)
  | _ => none

/-- Read the annotations map field: absent means empty. -/
def parseAnnF : Option Json → Option (List (GoStr × GoStr))
  | none => some []
  | some (.obj l) => l.mapM parseAnnEntry
  | some _ => none

/-- Known keys of a skill object. -/
def skillKeys : List GoStr := [kCategory, kClass, kId, kName]

/-- Parse a skill object; unknown fields are rejected. -/
def parseSkill : Json → Option Skill
  | .obj fields =>
    if fields.all (fun kv => decide (kv.1 ∈ skillKeys)) then do
      let c ← parseOptStrF (assocFind kCategory fields)
      let cl ← parseOptStrF (assocFind kClass fields)
      let i ← parseOptNumF (assocFind kId fields)
      let n ← parseOptStrF (assocFind kName fields)
      pure ⟨c, cl, i, n⟩
    else none
  | _ => none

/-- Known keys of an extension object. -/
def extensionKeys : List GoStr := [kData, kName, kVersion]

/-- Parse an extension object; unknown fields are rejected. -/
def parseExtension : Json → Option Extension
  | .obj fields =>
    if fields.all (fun kv => decide (kv.1 ∈ extensionKeys)) then do
      let d ← parseOptStrF (assocFind kData fields)
      let n ← parseStrF (assocFind kName fields)
      let v ← parseStrF (assocFind kVersion fields)
      pure ⟨n, v, d⟩
    else none
  | _ => none

/-- Known keys of a locator object. -/
def locatorKeys : List GoStr := [kType, kUrl]

/-- Parse a locator object; unknown fields are rejected. -/
def parseLocator : Json → Option Locator
  | .obj fields =>
    if fields.all (fun kv => decide (kv.1 ∈ locatorKeys)) then do
      let t ← parseStrF (assocFind kType fields)
      let u ← parseStrF (assocFind kUrl fields)
      pure ⟨t, u⟩
    else none
  | _ => none

/-- Read a repeated field of skills: absent means empty. -/
def parseSkillsF : Option Json → Option (List Skill)
  | none => some []
  | some (.arr items) => items.mapM parseSkill
  | some _ => none

/-- Read a repeated field of extensions: absent means empty. -/
def parseExtensionsF : Option Json → Option (List Extension)
  | none => some []
  | some (.arr items) => items.mapM parseExtension
  | some _ => none

/-- Read a repeated field of locators: absent means empty. -/
def parseLocatorsF : Option Json → Option (List Locator)
  | none => some []
  | some (.arr items) => items.mapM parseLocator
  | some _ => none

/-- Known keys of the payload object. -/
def payloadKeys : List GoStr :=
  [kAnnotations, kDescription, kExtensions, kLocators, kName,
    kSchemaVersion, kSignature, kSkills, kVersion]

/-- Parse the payload object; unknown fields are rejected. -/
def parsePayload : Json → Option RecordPayload
  | .obj fields =>
    if fields.all (fun kv => decide (kv.1 ∈ payloadKeys)) then do
      let ann ← parseAnnF (assocFind kAnnotations fields)
      let desc ← parseStrF (assocFind kDescription fields)
      let exts ← parseExtensionsF (assocFind kExtensions fields)
      let locs ← parseLocatorsF (assocFind kLocators fields)
      let nm ← parseStrF (assocFind kName fields)
      let sv ← parseStrF (assocFind kSchemaVersion fields)
      let sig ← parseOptStrF (assocFind kSignature fields)
      let sks ← parseSkillsF (assocFind kSkills fields)
      let ver ← parseStrF (assocFind kVersion fields)
      pure ⟨nm, ver, sv, desc, sks, exts, locs, ann, sig⟩
    else none
  | _ => none

/-- CanonicalUnmarshal on the parsed tree of the input bytes.  The empty
object yields a record with no variant set; exactly one of the oneof keys
must otherwise be present; anything else (including JSON `null`, per the
tests) is an error. -/
def CanonicalUnmarshal : Json → Option Record
  | .obj [] => some ⟨none⟩
  | .obj [(k, v)] =>
    if k = kV1 then (parsePayload v).map (fun p => ⟨some (.v1 p)⟩)
    else if k = kV2 then (parsePayload v).map (fun p => ⟨some (.v2 p)⟩)
    else if k = kV3 then (parsePayload v).map (fun p => ⟨some (.v3 p)⟩)
    else none
  | _ => none

/-- Ordering of annotations entries by key. -/
def annPairLe (a b : GoStr × GoStr) : Prop := a.1 ≤ b.1

instance : DecidableRel annPairLe := fun a b => by
  unfold annPairLe; infer_instance

instance : IsTotal (GoStr × GoStr) annPairLe :=
  ⟨fun a b => le_total a.1 b.1⟩

instance : IsTrans (GoStr × GoStr) annPairLe :=
  ⟨fun _ _ _ h h' => le_trans h h'⟩

/-- The payload with its annotations entries sorted by key: the effect of a
canonical round-trip on a payload. -/
def normAnnPayload (p : RecordPayload) : RecordPayload :=
  { p with annotations := List.insertionSort annPairLe p.annotations }

/-- The record with every payload normalized via `normAnnPayload`. -/
def normRecord (r : Record) : Record :=
  match r.data with
  | none => ⟨none⟩
  | some (.v1 p) => ⟨some (.v1 (normAnnPayload p))⟩
  | some (.v2 p) => ⟨some (.v2 (normAnnPayload p))⟩
  | some (.v3 p) => ⟨some (.v3 (normAnnPayload p))⟩

/-! ## OASF version detection and loading (cli/types)

`DetectOASFVersion` unmarshals the raw bytes into a struct with the single
field `schema_version`; `LoadOASFFromReader` dispatches on the detected
version.  Both are modelled at the JSON-tree level (the byte-level JSON
parser is elided); `encoding/json` semantics apply: unknown fields are
ignored, absent fields keep their zero value, a type mismatch is an
error, and a top-level `null` leaves the target zeroed. -/

/-- DetectOASFVersion: reads the top-level `schema_version` string; absent
or empty defaults to `v1` for backward compatibility; a JSON shape that
`encoding/json` cannot unmarshal into the detector struct is an error. -/
def DetectOASFVersion : Json → Option GoStr
  | .obj fields =>
    match assocFind kSchemaVersion fields with
    | none => some kV1
    | some (.str s) => if s = [] then some kV1 else some s
    | some .null => some kV1
    | some _ => none
  | .null => some kV1
  | _ => none

/-- Errors of `LoadOASFFromReader`. -/
inductive LoadErr where
  | parseFailed
  | unmarshalFailed
  | unsupportedVersion (v : GoStr)
deriving DecidableEq

/-- The zero value of a payload. -/
def emptyPayload : RecordPayload := ⟨[], [], [], [], [], [], [], [], none⟩

/-- Parse a skill object leniently (`encoding/json`: unknown fields are
ignored). -/
def parseSkillLenient : Json → Option Skill
  | .obj fields => do
    let c ← parseOptStrF (assocFind kCategory fields)
    let cl ← parseOptStrF (assocFind kClass fields)
    let i ← parseOptNumF (assocFind kId fields)
    let n ← parseOptStrF (assocFind kName fields)
    pure ⟨c, cl, i, n⟩
  | .null => some ⟨none, none, none, none⟩
  | _ => none

/-- Parse an extension object leniently. -/
def parseExtensionLenient : Json → Option Extension
  | .obj fields => do
    let d ← parseOptStrF (assocFind kData fields)
    let n ← parseStrF (assocFind kName fields)
    let v ← parseStrF (assocFind kVersion fields)
    pure ⟨n, v, d⟩
  | .null => some ⟨[], [], none⟩
  | _ => none

/-- Parse a locator object leniently. -/
def parseLocatorLenient : Json → Option Locator
  | .obj fields => do
    let t ← parseStrF (assocFind kType fields)
    let u ← parseStrF (assocFind kUrl fields)
    pure ⟨t, u⟩
  | .null => some ⟨[], []⟩
  | _ => none

/-- Parse the whole OASF document into a payload leniently. -/
def parsePayloadLenient : Json → Option RecordPayload
  | .obj fields => do
    let ann ← parseAnnF (assocFind kAnnotations fields)
    let desc ← parseStrF (assocFind kDescription fields)
    let exts ←
      match assocFind kExtensions fields with
      | none => some []
      | some (.arr items) => items.mapM parseExtensionLenient
      | some _ => none
    let locs ←
      match assocFind kLocators fields with
      | none => some []
      | some (.arr items) => items.mapM parseLocatorLenient
      | some _ => none
    let nm ← parseStrF (assocFind kName fields)
    let sv ← parseStrF (assocFind kSchemaVersion fields)
    let sig ← parseOptStrF (assocFind kSignature fields)
    let sks ←
      match assocFind kSkills fields with
      | none => some []
      | some (.arr items) => items.mapM parseSkillLenient
      | some _ => none
    let ver ← parseStrF (assocFind kVersion fields)
    pure ⟨nm, ver, sv, desc, sks, exts, locs, ann, sig⟩
  | .null => some emptyPayload
  | _ => none

/-- Dispatch of LoadOASFFromReader on an already detected version. -/
def loadWithVersion (j : Json) (v : GoStr) : Except LoadErr Record :=
  if v = kV1 then
    match parsePayloadLenient j with
    | some p => .ok ⟨some (.v1 p)⟩
    | none => .error .unmarshalFailed
  else if v = kV2 then
    match parsePayloadLenient j with
    | some p => .ok ⟨some (.v2 p)⟩
    | none => .error .unmarshalFailed
  else if v = kV3 then
    match parsePayloadLenient j with
    | some p => .ok ⟨some (.v3 p)⟩
    | none => .error .unmarshalFailed
  else .error (.unsupportedVersion v)

/-- LoadOASFFromReader: detect the version, then unmarshal the document as
the corresponding variant; an unknown version is `unsupportedVersion`. -/
def LoadOASFFromReader (j : Json) : Except LoadErr Record :=
  match DetectOASFVersion j with
  | none => .error .parseFailed
  | some v => loadWithVersion j v

/-! ## OCI discovery tags (server/store/oci/tags.go) -/

/-- ASCII lowercasing, the fragment of Go's `strings.ToLower` the tag
normalizer can observe: `strings.ToLower` lowercases rune-wise, and every
rune outside `[a-z0-9]` — whether it was produced by Unicode lowercasing or
not — is replaced by the character switch of `normalizeTagForOCI`, so only
the ASCII behaviour is distinguishable. -/
def goToLowerChar (c : Char) : Char :=
  if 'A' ≤ c ∧ c ≤ 'Z' then Char.ofNat (c.toNat + 32) else c

/-- The per-rune replacement loop of `normalizeTagForOCI`.  The Boolean
flag tells whether we are at byte offset 0 (Go indexes the range loop by
byte offset; offset 0 is exactly the first rune). -/
def replaceTagChars : Bool → List Char → List Char
  | _, [] => []
  | isFirst, c :: rest =>
    (if ('a' ≤ c ∧ c ≤ 'z') ∨ ('0' ≤ c ∧ c ≤ '9') then [c]
     else if c = '_' ∨ c = '.' ∨ c = '-' then (if isFirst then ['_'] else [c])
     else if c = ' ' then ['-']
     else if c = '/' ∨ c = bsChar then ['.']
     else ['_']) ++ replaceTagChars false rest

/-- Characters trimmed from the right of a normalized tag. -/
def isTrimCut (c : Char) : Bool := c == '.' || c == '-' || c == '_'

/-- Go's `strings.TrimRight`: removes the maximal suffix of cutset
characters. -/
def trimRightGo (cut : Char → Bool) : List Char → List Char
  | [] => []
  | c :: rest =>
    if cut c ∧ trimRightGo cut rest = [] then [] else c :: trimRightGo cut rest

/-- The ensure-valid-first-byte step of normalizeTagForOCI: a leading
character outside `[a-z0-9_]` is prefixed with an underscore. -/
def ensureValidStart : GoStr → GoStr
  | [] => []
  | c :: rest =>
    if ('a' ≤ c ∧ c ≤ 'z') ∨ ('0' ≤ c ∧ c ≤ '9') ∨ c = '_' then c :: rest
    else '_' :: c :: rest

/-- The 128-byte length limit of normalizeTagForOCI. -/
def truncate128 (e : GoStr) : GoStr :=
  if e.length > 128 then e.take 128 else e

/-- normalizeTagForOCI: lowercase, replace invalid characters, fix an
invalid leading character, truncate to 128 bytes, trim trailing
separators.  After the replacement loop every character is ASCII, so the
byte positions and counts Go uses coincide with rune positions and
counts. -/
def normalizeTagForOCI (tag : GoStr) : GoStr :=
  if tag = [] then []
  else
    trimRightGo isTrimCut
      (truncate128 (ensureValidStart (replaceTagChars true (tag.map goToLowerChar))))

/-- TagStrategy (tags.go). -/
structure TagStrategy where
  enableNameTags : Bool
  enableCapabilityTags : Bool
  enableInfrastructureTags : Bool
  enableTeamTags : Bool
  enableContentAddressable : Bool
  maxTagsPerRecord : Int
deriving DecidableEq

/-- DefaultTagStrategy: everything enabled, at most 20 tags per record. -/
def DefaultTagStrategy : TagStrategy :=
  { enableNameTags := true
    enableCapabilityTags := true
    enableInfrastructureTags := true
    enableTeamTags := true
    enableContentAddressable := true
    maxTagsPerRecord := 20 }

/-- The string-valued metadata map handed to the tag generator. -/
abbrev Metadata := List (GoStr × GoStr)

/-- First-match lookup in a string map. -/
def assocLookup (k : GoStr) : List (GoStr × GoStr) → Option GoStr
  | [] => none
  | (k2, v) :: rest => if k = k2 then some v else assocLookup k rest

/-- Go map read `md[k]`: the empty string when the key is absent. -/
def mget (md : Metadata) (k : GoStr) : GoStr := (assocLookup k md).getD []

/-- Modelled from the spec: the metadata key constants (MetadataKeyName and
friends) live in an OCI-store source file that is not part of the sources
here; the spec names the corresponding annotation keys `dir.name`,
`dir.version`, `dir.skills`, `dir.extensions`, `dir.locators`, `dir.team`,
`dir.organization`, `dir.project`.  Only their distinctness is ever
used. -/
def MetadataKeyName : GoStr := "dir.name".toList

/-- Metadata key for the record version. -/
def MetadataKeyVersion : GoStr := "dir.version".toList

/-- Metadata key for the comma-joined skill names. -/
def MetadataKeySkills : GoStr := "dir.skills".toList

/-- Metadata key for the comma-joined extension names. -/
def MetadataKeyExtensionNames : GoStr := "dir.extensions".toList

/-- Metadata key for the comma-joined locator types. -/
def MetadataKeyLocatorTypes : GoStr := "dir.locators".toList

/-- Metadata key for the team annotation. -/
def MetadataKeyTeam : GoStr := "dir.team".toList

/-- Metadata key for the organization annotation. -/
def MetadataKeyOrganization : GoStr := "dir.organization".toList

/-- Metadata key for the project annotation. -/
def MetadataKeyProject : GoStr := "dir.project".toList

/-- Modelled from the spec: `parseCommaSeparated` lives in the same missing
OCI-store utility file; the spec describes the joined form as comma-joined
lists, so the model splits on commas. -/
def splitCommaAux (acc : GoStr) : GoStr → List GoStr
  | [] => [acc.reverse]
  | c :: rest =>
    if c = ',' then acc.reverse :: splitCommaAux [] rest
    else splitCommaAux (c :: acc) rest

/-- parseCommaSeparated (modelled from the spec, see `splitCommaAux`). -/
def parseCommaSeparated (s : GoStr) : List GoStr := splitCommaAux [] s

/-- Append a candidate tag only when it is nonempty (the repeated
`if tag != "" \x7b tags = append(tags, tag) \x7d` pattern). -/
def tagIfNonempty (t : GoStr) : List GoStr := if t = [] then [] else [t]

/-- Content-addressable tag group (step 1 of generateTagsFromMetadata):
the normalized CID, appended without an emptiness check. -/
def cidTagGroup (cid : GoStr) (strat : TagStrategy) : List GoStr :=
  if strat.enableContentAddressable ∧ cid ≠ [] then [normalizeTagForOCI cid] else []

/-- Name-based tag group (step 2): name, name:version, name:latest. -/
def nameTagGroup (md : Metadata) (strat : TagStrategy) : List GoStr :=
  if strat.enableNameTags then
    let nm := mget md MetadataKeyName
    if nm ≠ [] then
      tagIfNonempty (normalizeTagForOCI nm) ++
        ((let ver := mget md MetadataKeyVersion
          if ver ≠ [] then tagIfNonempty (normalizeTagForOCI (nm ++ ':' :: ver)) else []) ++
          tagIfNonempty (normalizeTagForOCI (nm ++ ':' :: "latest".toList)))
    else []
  else []

/-- Skill part of the capability tag group (step 3). -/
def skillTagPart (md : Metadata) : List GoStr :=
  let skills := mget md MetadataKeySkills
  if skills ≠ [] then
    (parseCommaSeparated skills).flatMap fun sk =>
      if sk ≠ [] then tagIfNonempty (normalizeTagForOCI ("skill.".toList ++ sk)) else []
  else []

/-- Extension part of the capability tag group (step 3). -/
def extTagPart (md : Metadata) : List GoStr :=
  let exts := mget md MetadataKeyExtensionNames
  if exts ≠ [] then
    (parseCommaSeparated exts).flatMap fun e =>
      if e ≠ [] then tagIfNonempty (normalizeTagForOCI ("ext.".toList ++ e)) else []
  else []

/-- Capability tag group (step 3). -/
def capabilityTagGroup (md : Metadata) (strat : TagStrategy) : List GoStr :=
  if strat.enableCapabilityTags then skillTagPart md ++ extTagPart md else []

/-- Infrastructure tag group (step 4): deploy.<locator type>. -/
def infraTagGroup (md : Metadata) (strat : TagStrategy) : List GoStr :=
  if strat.enableInfrastructureTags then
    let locs := mget md MetadataKeyLocatorTypes
    if locs ≠ [] then
      (parseCommaSeparated locs).flatMap fun lo =>
        if lo ≠ [] then tagIfNonempty (normalizeTagForOCI ("deploy.".toList ++ lo)) else []
    else []
  else []

/-- Team tag group (step 5): team.<v>, org.<v>, project.<v>. -/
def teamTagGroup (md : Metadata) (strat : TagStrategy) : List GoStr :=
  if strat.enableTeamTags then
    (let t := mget md MetadataKeyTeam
     if t ≠ [] then tagIfNonempty (normalizeTagForOCI ("team.".toList ++ t)) else []) ++
      ((let o := mget md MetadataKeyOrganization
        if o ≠ [] then tagIfNonempty (normalizeTagForOCI ("org.".toList ++ o)) else []) ++
        (let pr := mget md MetadataKeyProject
         if pr ≠ [] then tagIfNonempty (normalizeTagForOCI ("project.".toList ++ pr)) else []))
  else []

/-- The deduplication loop of removeDuplicateTags, with its `seen` set. -/
def removeDupGo (seen : List GoStr) : List GoStr → List GoStr
  | [] => []
  | t :: rest =>
    if t ≠ [] ∧ t ∉ seen then t :: removeDupGo (t :: seen) rest
    else removeDupGo seen rest

/-- removeDuplicateTags: drops empty tags and later duplicates, keeping
first occurrences in order. -/
def removeDuplicateTags (tags : List GoStr) : List GoStr := removeDupGo [] tags

/-- Specification-style first-occurrence deduplication, used to state what
`removeDuplicateTags` computes. -/
def keepFirstNonempty : List GoStr → List GoStr
  | [] => []
  | t :: rest =>
    if t = [] then keepFirstNonempty rest
    else t :: keepFirstNonempty (rest.filter fun x => x ≠ t)
termination_by l => l.length
decreasing_by
  · simp only [List.length_cons]
    exact Nat.lt_succ_of_le (Nat.le_refl _)
  · simp only [List.length_cons]
    exact Nat.lt_succ_of_le (List.length_filter_le _ _)

/-- The five ordered tag groups of generateTagsFromMetadata, before
deduplication and truncation: content-addressable first, then name-based,
capability, infrastructure and team tags, each preserving discovery
order. -/
def plannedTags (md : Metadata) (cid : GoStr) (strat : TagStrategy) : List GoStr :=
  cidTagGroup cid strat ++
    (nameTagGroup md strat ++
      (capabilityTagGroup md strat ++
        (infraTagGroup md strat ++ teamTagGroup md strat)))

/-- generateTagsFromMetadata: the five ordered groups, deduplicated and
truncated to MaxTagsPerRecord. -/
def generateTagsFromMetadata (md : Metadata) (cid : GoStr) (strat : TagStrategy) :
    List GoStr :=
  let deduped := removeDuplicateTags (plannedTags md cid strat)
  if strat.maxTagsPerRecord > 0 ∧ (deduped.length : Int) > strat.maxTagsPerRecord then
    deduped.take strat.maxTagsPerRecord.toNat
  else deduped

/-- Outcome of pushManifestWithTags. -/
inductive TagPushOutcome where
  | internalError
  | ok
deriving DecidableEq

/-- The tag loop of pushManifestWithTags: empty tags are skipped, failures
of `oras.Tag` (abstracted by the `fails` oracle) are collected. -/
def collectTagErrors (fails : GoStr → Bool) : List GoStr → List GoStr
  | [] => []
  | t :: rest =>
    if t = [] then collectTagErrors fails rest
    else if fails t then t :: collectTagErrors fails rest
    else collectTagErrors fails rest

/-- pushManifestWithTags: Internal error iff there was at least one tag
error and the error count equals the length of the whole tag list. -/
def pushManifestWithTags (fails : GoStr → Bool) (tags : List GoStr) : TagPushOutcome :=
  let tagErrors := collectTagErrors fails tags
  if 0 < tagErrors.length ∧ tagErrors.length = tags.length then .internalError
  else .ok

/-! ## Streaming core (client/streaming)

The four streaming primitives follow one generator pattern: dial one
backend stream, then a sender task forwards the input channel and a
receiver task forwards backend responses, both writing results into one
output channel that is closed when both finish.  The model is
denotational: the backend is an oracle (`BidiBackend`) describing whether
dialing fails, which sends fail, whether closing the send side fails, and
the response sequence; the output channel's content is listed under the
sequential schedule in which sender results precede receiver results (the
Go implementation interleaves the two nondeterministically; every claim
settled here is insensitive to that interleaving). -/

/-- Reference to a record by CID. -/
structure RecordRef where
  cid : GoStr
deriving DecidableEq

/-- Record metadata (the fields beyond the CID play no role in the claims
settled here). -/
structure RecordMeta where
  cid : GoStr
deriving DecidableEq

/-- The kinds of stream-level errors a streaming primitive emits. -/
inductive StreamErrKind where
  | createFailed
  | sendFailed (index : Nat)
  | recvFailed (index : Nat)
  | closeFailed
deriving DecidableEq

/-- One result on the output channel of a bidirectional streaming op:
a value or an error, with the correlating index. -/
structure BidiResult (β : Type) where
  value : Option β
  error : Option StreamErrKind
  index : Nat
deriving DecidableEq

/-- Backend oracle for a bidirectional streaming op with responses of
type β. -/
structure BidiBackend (β : Type) where
  createErr : Bool
  sendErr : Nat → Bool
  closeSendErr : Bool
  responses : List β
  recvTailErr : Bool

/-- Results emitted by the sender task: it forwards inputs until the first
send error (emitting that error and stopping), and its deferred CloseSend
emits a close error when closing fails.  Only the number of inputs is
observable. -/
def senderResults (b : BidiBackend β) : Nat → Nat → List (BidiResult β)
  | _, 0 => if b.closeSendErr then [⟨none, some .closeFailed, 0⟩] else []
  | i, n + 1 =>
    if b.sendErr i then
      ⟨none, some (.sendFailed i), i⟩ ::
        (if b.closeSendErr then [⟨none, some .closeFailed, 0⟩] else [])
    else senderResults b (i + 1) n

/-- Results emitted by the receiver task: each backend response in order
with its 0-based index, then either EOF (nothing) or a receive error. -/
def receiverResults (b : BidiBackend β) : List (BidiResult β) :=
  let rec go (i : Nat) : List β → List (BidiResult β)
    | [] => if b.recvTailErr then [⟨none, some (.recvFailed i), i⟩] else []
    | v :: rest => ⟨some v, none, i⟩ :: go (i + 1) rest
  go 0 b.responses

/-- The output-channel content of a bidi streaming op, with the flag that a
backend stream was dialed (the generator dials unconditionally, before
reading any input). -/
def bidiStreamModel (b : BidiBackend β) (inputs : List α) :
    List (BidiResult β) × Bool :=
  if b.createErr then ([⟨none, some .createFailed, 0⟩], true)
  else (senderResults b 0 inputs.length ++ receiverResults b, true)

/-- PushStream: records in, record references out. -/
def PushStream (b : BidiBackend RecordRef) (inputs : List Record) :
    List (BidiResult RecordRef) × Bool := bidiStreamModel b inputs

/-- PullStream: record references in, records out. -/
def PullStream (b : BidiBackend Record) (inputs : List RecordRef) :
    List (BidiResult Record) × Bool := bidiStreamModel b inputs

/-- LookupStream: record references in, record metadata out. -/
def LookupStream (b : BidiBackend RecordMeta) (inputs : List RecordRef) :
    List (BidiResult RecordMeta) × Bool := bidiStreamModel b inputs

/-- One result of the client-streaming delete op. -/
structure DeleteResult where
  error : Option StreamErrKind
  index : Nat
deriving DecidableEq

/-- Backend oracle for the delete op: dialing, per-send outcomes and the
terminal CloseAndRecv outcome (`closeAndRecvErr` is a non-EOF error; EOF is
success). -/
structure DeleteBackend where
  createErr : Bool
  sendErr : Nat → Bool
  closeAndRecvErr : Bool

/-- The single sequential task of DeleteStream: emit a success per
forwarded ref, stop at the first send error, then await the terminal
acknowledgment. -/
def deleteSenderResults (b : DeleteBackend) : Nat → Nat → List DeleteResult
  | _, 0 => if b.closeAndRecvErr then [⟨some .closeFailed, 0⟩] else []
  | i, n + 1 =>
    if b.sendErr i then [⟨some (.sendFailed i), i⟩]
    else ⟨none, i⟩ :: deleteSenderResults b (i + 1) n

/-- DeleteStream: the output-channel content and the dialed flag. -/
def DeleteStream (b : DeleteBackend) (inputs : List RecordRef) :
    List DeleteResult × Bool :=
  if b.createErr then ([⟨some .createFailed, 0⟩], true)
  else (deleteSenderResults b 0 inputs.length, true)

/-! ## Client scalar and batch wrappers (client) -/

/-- The zero BidiResult, the value a Go receive yields when the output
channel closes without emitting. -/
def zeroBidiResult : BidiResult β := ⟨none, none, 0⟩

/-- Client.Push: feed a one-element closed channel through PushStream and
return the single result's fields. -/
def ClientPush (b : BidiBackend RecordRef) (record : Record) :
    Option RecordRef × Option StreamErrKind :=
  let results := (PushStream b [record]).1
  let r := results.headD zeroBidiResult
  (r.value, r.error)

/-- Client.Pull. -/
def ClientPull (b : BidiBackend Record) (ref : RecordRef) :
    Option Record × Option StreamErrKind :=
  let results := (PullStream b [ref]).1
  let r := results.headD zeroBidiResult
  (r.value, r.error)

/-- Client.Lookup. -/
def ClientLookup (b : BidiBackend RecordMeta) (ref : RecordRef) :
    Option RecordMeta × Option StreamErrKind :=
  let results := (LookupStream b [ref]).1
  let r := results.headD zeroBidiResult
  (r.value, r.error)

/-- Client.Delete. -/
def ClientDelete (b : DeleteBackend) (ref : RecordRef) : Option StreamErrKind :=
  let results := (DeleteStream b [ref]).1
  (results.headD ⟨none, 0⟩).error

/-- First non-nil error among streamed results. -/
def firstErrorOf : List (BidiResult β) → Option StreamErrKind
  | [] => none
  | r :: rest =>
    match r.error with
    | some e => some e
    | none => firstErrorOf rest

/-- All non-nil values among streamed results, in order. -/
def collectValues (results : List (BidiResult β)) : List β :=
  results.filterMap (·.value)

/-- Client.PushBatch: empty input returns nil results and nil error without
dialing; otherwise the slice is fed through PushStream and the results are
folded.  The Boolean records whether a backend stream was dialed. -/
def ClientPushBatch (b : BidiBackend RecordRef) (records : List Record) :
    List RecordRef × Option StreamErrKind × Bool :=
  if records = [] then ([], none, false)
  else
    let out := PushStream b records
    (collectValues out.1, firstErrorOf out.1, out.2)

/-- Client.PullBatch. -/
def ClientPullBatch (b : BidiBackend Record) (refs : List RecordRef) :
    List Record × Option StreamErrKind × Bool :=
  if refs = [] then ([], none, false)
  else
    let out := PullStream b refs
    (collectValues out.1, firstErrorOf out.1, out.2)

/-- Client.LookupBatch. -/
def ClientLookupBatch (b : BidiBackend RecordMeta) (refs : List RecordRef) :
    List RecordMeta × Option StreamErrKind × Bool :=
  if refs = [] then ([], none, false)
  else
    let out := LookupStream b refs
    (collectValues out.1, firstErrorOf out.1, out.2)

/-- First non-nil error among delete results. -/
def firstDeleteErrorOf : List DeleteResult → Option StreamErrKind
  | [] => none
  | r :: rest =>
    match r.error with
    | some e => some e
    | none => firstDeleteErrorOf rest

/-- Client.DeleteBatch: empty input returns nil error without dialing;
otherwise the first error (if any) of the streamed results. -/
def ClientDeleteBatch (b : DeleteBackend) (refs : List RecordRef) :
    Option StreamErrKind × Bool :=
  if refs = [] then (none, false)
  else
    let out := DeleteStream b refs
    (firstDeleteErrorOf out.1, out.2)

/-! ## Auxiliary definitions used by theorem statements -/

/-- First-character class of the OCI tag pattern `[a-z0-9_]`. -/
def validTagFirstChar (c : Char) : Prop :=
  ('a' ≤ c ∧ c ≤ 'z') ∨ ('0' ≤ c ∧ c ≤ '9') ∨ c = '_'

instance : DecidablePred validTagFirstChar := fun c => by
  unfold validTagFirstChar; infer_instance

/-- Tail-character class of the OCI tag pattern `[a-z0-9._-]`. -/
def validTagChar (c : Char) : Prop :=
  validTagFirstChar c ∨ c = '.' ∨ c = '-'

instance : DecidablePred validTagChar := fun c => by
  unfold validTagChar; infer_instance

/-- Matching the anchored OCI tag pattern `[a-z0-9_][a-z0-9._-]` with at
most 127 tail characters. -/
def matchesOCITagPattern : GoStr → Prop
  | [] => False
  | c :: rest => validTagFirstChar c ∧ rest.length ≤ 127 ∧ ∀ x ∈ rest, validTagChar x

instance : DecidablePred matchesOCITagPattern := fun s => by
  cases s <;> (unfold matchesOCITagPattern; infer_instance)

/-- The schema-variant tag of a record, when one is set. -/
def recordVariantTag (r : Record) : Option Nat :=
  match r.data with
  | none => none
  | some (.v1 _) => some 1
  | some (.v2 _) => some 2
  | some (.v3 _) => some 3

/-- The logical projection of a record: its payload, when a variant is
set. -/
def recordProjection (r : Record) : Option RecordPayload :=
  match r.data with
  | none => none
  | some (.v1 p) => some p
  | some (.v2 p) => some p
  | some (.v3 p) => some p

/-- Modelled from the spec: `cid(R) = CIDv1(sha256(canonical(R)))` with
multihash wrapping; `GetCid` itself lives outside these sources.  The
CIDv1/multihash/base32 envelope is a fixed injective encoding of the
digest and is elided; the digest function is a parameter because sha-256
is an external library primitive. -/
def GetCidWith (hash : GoStr → GoStr) (r : Record) : GoStr :=
  hash (serialize (CanonicalMarshalTree r))

/-! # Theorems -/

/-- Helper: with no empty tag in the list, the error-collection loop of
pushManifestWithTags is a filter by the failure oracle. -/
theorem collectTagErrors_eq_filter (fails : GoStr → Bool) :
    ∀ tags : List GoStr, (∀ t ∈ tags, t ≠ []) →
      collectTagErrors fails tags = tags.filter fails := by
  intro tags
  induction tags with
  | nil => intro _; rfl
  | cons t rest ih =>
    intro h
    have ht : t ≠ [] := h t (by simp)
    have hr : ∀ x ∈ rest, x ≠ [] := fun x hx => h x (by simp [hx])
    by_cases hf : fails t <;>
      simp [collectTagErrors, ht, hf, ih hr, List.filter_cons]

/-- C4: pushing a manifest with a nonempty list of discovery tags (all of
them nonempty strings, as discovery tags are) returns Internal exactly when
every tag application failed; one success downgrades the failures to
warnings and the push succeeds. -/
theorem c4_push_tags_internal_iff_all_failed :
    ∀ (fails : GoStr → Bool) (tags : List GoStr),
      tags ≠ [] → (∀ t ∈ tags, t ≠ []) →
      (pushManifestWithTags fails tags = .internalError ↔ ∀ t ∈ tags, fails t = true) ∧
        ((∃ t ∈ tags, fails t = false) → pushManifestWithTags fails tags = .ok) := by
  intro fails tags hne hall
  have hcol := collectTagErrors_eq_filter fails tags hall
  have hfilter_len : ∀ h : ∀ t ∈ tags, fails t = true, tags.filter fails = tags :=
    fun h => List.filter_eq_self.mpr h
  refine ⟨⟨?_, ?_⟩, ?_⟩
  · intro h
    unfold pushManifestWithTags at h
    rw [hcol] at h
    by_cases hc : 0 < (tags.filter fails).length ∧ (tags.filter fails).length = tags.length
    · have heq : tags.filter fails = tags := (List.filter_sublist tags).eq_of_length hc.2
      exact List.filter_eq_self.mp heq
    · simp only [if_neg hc] at h
      exact absurd h (by simp)
  · intro h
    unfold pushManifestWithTags
    rw [hcol, hfilter_len h]
    have hl : 0 < tags.length := List.length_pos.mpr hne
    simp [hl]
  · rintro ⟨t, ht, hfail⟩
    unfold pushManifestWithTags
    rw [hcol]
    have hc : ¬(0 < (tags.filter fails).length ∧ (tags.filter fails).length = tags.length) := by
      rintro ⟨_, h2⟩
      have heq : tags.filter fails = tags := (List.filter_sublist tags).eq_of_length h2
      have := List.filter_eq_self.mp heq t ht
      rw [hfail] at this
      exact Bool.noConfusion this
    rw [if_neg hc]

/-- Witness for C4 at a concrete failing input. -/
theorem c4_push_tags_internal_iff_all_failed_witness :
    pushManifestWithTags (fun _ => true) [['a']] = .internalError :=
  (c4_push_tags_internal_iff_all_failed (fun _ => true) [['a']]
    (by decide) (by decide)).1.mpr (by decide)

/-- C10: every batch operation returns nil results and nil error on an
empty input slice, without dialing a backend stream. -/
theorem c10_empty_batch_noop :
    ∀ (b1 : BidiBackend RecordRef) (b2 : BidiBackend Record)
      (b3 : BidiBackend RecordMeta) (b4 : DeleteBackend),
      ClientPushBatch b1 [] = ([], none, false) ∧
        ClientPullBatch b2 [] = ([], none, false) ∧
        ClientLookupBatch b3 [] = ([], none, false) ∧
        ClientDeleteBatch b4 [] = (none, false) :=
  fun _ _ _ _ => ⟨rfl, rfl, rfl, rfl⟩

/-- C9: each scalar operation equals feeding a one-element closed channel
through the corresponding streaming primitive and returning the single
result's value and error; on a backend that accepts the item and answers
once, the scalar push returns exactly that answer. -/
theorem c9_scalar_single_item_stream :
    ∀ (bp : BidiBackend RecordRef) (r : Record) (bl : BidiBackend Record)
      (bm : BidiBackend RecordMeta) (bd : DeleteBackend) (ref : RecordRef),
      (ClientPush bp r =
          (((PushStream bp [r]).1.headD zeroBidiResult).value,
            ((PushStream bp [r]).1.headD zeroBidiResult).error) ∧
        ClientPull bl ref =
          (((PullStream bl [ref]).1.headD zeroBidiResult).value,
            ((PullStream bl [ref]).1.headD zeroBidiResult).error) ∧
        ClientLookup bm ref =
          (((LookupStream bm [ref]).1.headD zeroBidiResult).value,
            ((LookupStream bm [ref]).1.headD zeroBidiResult).error) ∧
        ClientDelete bd ref = ((DeleteStream bd [ref]).1.headD ⟨none, 0⟩).error) ∧
      (bp.createErr = false → bp.sendErr 0 = false → bp.closeSendErr = false →
        bp.recvTailErr = false → ∀ x, bp.responses = [x] →
        ClientPush bp r = (some x, none)) := by
  intro bp r bl bm bd ref
  refine ⟨⟨rfl, rfl, rfl, rfl⟩, ?_⟩
  intro h1 h2 h3 h4 x hx
  simp [ClientPush, PushStream, bidiStreamModel, senderResults, receiverResults,
    receiverResults.go, h1, h2, h3, h4, hx]

/-- Witness for C9 at a concrete accepting backend. -/
theorem c9_scalar_single_item_stream_witness :
    ClientPush ⟨false, fun _ => false, false, [⟨['c']⟩], false⟩ ⟨none⟩ =
      (some ⟨['c']⟩, none) :=
  (c9_scalar_single_item_stream ⟨false, fun _ => false, false, [⟨['c']⟩], false⟩
      ⟨none⟩ ⟨false, fun _ => false, false, [], false⟩
      ⟨false, fun _ => false, false, [], false⟩ ⟨false, fun _ => false, false⟩
      ⟨['x']⟩).2 rfl rfl rfl rfl ⟨['c']⟩ rfl

/-- C3 counterexample: canonical serialization of a record with no variant
data set does not fail; it succeeds and yields the two bytes of the empty
JSON object. -/
theorem c3_counterexample_empty_record_succeeds :
    CanonicalMarshal (some ⟨none⟩) = some [obChar, cbChar] ∧
      CanonicalMarshal (some ⟨none⟩) ≠ none :=
  ⟨rfl, by decide⟩

/-- C3 amended: canonical serialization succeeds on a record with no
variant data set, producing the empty JSON object, and a nil record yields
empty bytes with no error. -/
theorem c3_amended_empty_record_and_nil :
    (∀ r : Record, r.data = none → CanonicalMarshal (some r) = some [obChar, cbChar]) ∧
      CanonicalMarshal none = some [] := by
  refine ⟨?_, rfl⟩
  intro r h
  cases r with
  | mk d => cases h; rfl

/-- Witness for the amended C3 at the concrete empty record. -/
theorem c3_amended_empty_record_and_nil_witness :
    CanonicalMarshal (some ⟨none⟩) = some [obChar, cbChar] :=
  c3_amended_empty_record_and_nil.1 ⟨none⟩ rfl

/-- C7: version detection defaults to variant v1 when `schema_version` is
absent; a successfully loaded document is decoded as the variant its
detected version names; an unknown version makes the load fail with the
unsupported-version error. -/
theorem c7_version_detection_and_dispatch :
    (∀ fields : List (GoStr × Json), assocFind kSchemaVersion fields = none →
        DetectOASFVersion (.obj fields) = some kV1) ∧
      (∀ (j : Json) (r : Record), LoadOASFFromReader j = .ok r →
        ∀ v : GoStr, DetectOASFVersion j = some v →
          (v = kV1 → ∃ p, r.data = some (.v1 p)) ∧
            (v = kV2 → ∃ p, r.data = some (.v2 p)) ∧
            (v = kV3 → ∃ p, r.data = some (.v3 p))) ∧
      (∀ (j : Json) (v : GoStr), DetectOASFVersion j = some v →
        v ≠ kV1 → v ≠ kV2 → v ≠ kV3 →
        LoadOASFFromReader j = .error (.unsupportedVersion v)) := by
  refine ⟨?_, ?_, ?_⟩
  · intro fields h
    simp [DetectOASFVersion, h]
  · intro j r hload v hdet
    unfold LoadOASFFromReader at hload
    rw [hdet] at hload
    have hload2 : loadWithVersion j v = .ok r := hload
    unfold loadWithVersion at hload2
    clear hload
    rename' hload2 => hload
    split_ifs at hload with h1 h2 h3
    · cases hp : parsePayloadLenient j with
      | none => rw [hp] at hload; exact absurd hload (by simp)
      | some p =>
        rw [hp] at hload
        have hr : r = ⟨some (.v1 p)⟩ := by
          cases hload; rfl
        subst hr
        refine ⟨fun _ => ⟨p, rfl⟩, fun hv => ?_, fun hv => ?_⟩
        · exact absurd (hv.symm.trans h1) (by decide)
        · exact absurd (hv.symm.trans h1) (by decide)
    · cases hp : parsePayloadLenient j with
      | none => rw [hp] at hload; exact absurd hload (by simp)
      | some p =>
        rw [hp] at hload
        have hr : r = ⟨some (.v2 p)⟩ := by
          cases hload; rfl
        subst hr
        refine ⟨fun hv => ?_, fun _ => ⟨p, rfl⟩, fun hv => ?_⟩
        · exact absurd (hv.symm.trans h2) (by decide)
        · exact absurd (hv.symm.trans h2) (by decide)
    · cases hp : parsePayloadLenient j with
      | none => rw [hp] at hload; exact absurd hload (by simp)
      | some p =>
        rw [hp] at hload
        have hr : r = ⟨some (.v3 p)⟩ := by
          cases hload; rfl
        subst hr
        refine ⟨fun hv => ?_, fun hv => ?_, fun _ => ⟨p, rfl⟩⟩
        · exact absurd (hv.symm.trans h3) (by decide)
        · exact absurd (hv.symm.trans h3) (by decide)
  · intro j v hdet h1 h2 h3
    unfold LoadOASFFromReader
    rw [hdet]
    show loadWithVersion j v = _
    unfold loadWithVersion
    rw [if_neg h1, if_neg h2, if_neg h3]

/-- Witness for C7: detection defaults on a document without
`schema_version`, and loading `schema_version: v4` fails with the
unsupported-version error. -/
theorem c7_version_detection_and_dispatch_witness :
    DetectOASFVersion (.obj [(kName, .str ['x'])]) = some kV1 ∧
      LoadOASFFromReader (.obj [(kSchemaVersion, .str ['v', '4'])]) =
        .error (.unsupportedVersion ['v', '4']) :=
  ⟨c7_version_detection_and_dispatch.1 [(kName, .str ['x'])] rfl,
    c7_version_detection_and_dispatch.2.2 (.obj [(kSchemaVersion, .str ['v', '4'])])
      ['v', '4'] rfl (by decide) (by decide) (by decide)⟩

/-- Helper: every character the replacement loop of the tag normalizer
emits lies in the tag tail class. -/
theorem replaceTagChars_all_valid :
    ∀ (b : Bool) (s : List Char), ∀ c ∈ replaceTagChars b s, validTagChar c := by
  intro b s
  induction s generalizing b with
  | nil => intro c hc; simp [replaceTagChars] at hc
  | cons x rest ih =>
    intro c hc
    rw [replaceTagChars] at hc
    rcases List.mem_append.mp hc with h | h
    · split_ifs at h with h1 h2 h3 h4 h5 <;> simp at h <;> subst h
      · rcases h1 with ha | hd
        · exact Or.inl (Or.inl ha)
        · exact Or.inl (Or.inr (Or.inl hd))
      · decide
      · rcases h2 with h2 | h2 | h2 <;> rw [h2] <;> decide
      · decide
      · decide
      · decide
    · exact ih false c h

/-- Helper: trimming trailing characters keeps only characters of the
input. -/
theorem trimRightGo_mem (cut : Char → Bool) :
    ∀ l : List Char, ∀ c ∈ trimRightGo cut l, c ∈ l := by
  intro l
  induction l with
  | nil => simp [trimRightGo]
  | cons x rest ih =>
    intro c hc
    rw [trimRightGo] at hc
    split_ifs at hc with h
    · simp at hc
    · rcases List.mem_cons.mp hc with h1 | h1
      · simp [h1]
      · exact List.mem_cons_of_mem _ (ih c h1)

/-- Helper: trimming trailing characters does not lengthen the list. -/
theorem trimRightGo_length (cut : Char → Bool) :
    ∀ l : List Char, (trimRightGo cut l).length ≤ l.length := by
  intro l
  induction l with
  | nil => simp [trimRightGo]
  | cons x rest ih =>
    rw [trimRightGo]
    split_ifs with h
    · simp
    · simpa using ih

/-- Helper: trimming a nonempty list yields nothing or keeps its head. -/
theorem trimRightGo_head (cut : Char → Bool) (x : Char) (rest : List Char) :
    trimRightGo cut (x :: rest) = [] ∨
      ∃ r, trimRightGo cut (x :: rest) = x :: r := by
  rw [trimRightGo]
  split_ifs with h
  · exact Or.inl rfl
  · exact Or.inr ⟨_, rfl⟩

/-- Helper: a list of valid tag characters with a valid first character
and at most 128 characters matches the pattern after the final trim. -/
theorem trim_stage_matches (e : GoStr) (hmem : ∀ c ∈ e, validTagChar c)
    (hfirst : ∀ c r2, e = c :: r2 → validTagFirstChar c) (hlen : e.length ≤ 128) :
    trimRightGo isTrimCut e = [] ∨ matchesOCITagPattern (trimRightGo isTrimCut e) := by
  cases e with
  | nil => exact Or.inl rfl
  | cons x rest =>
    rcases trimRightGo_head isTrimCut x rest with h | ⟨r, hr⟩
    · exact Or.inl h
    · right
      rw [hr]
      refine ⟨hfirst x rest rfl, ?_, ?_⟩
      · have := trimRightGo_length isTrimCut (x :: rest)
        rw [hr] at this
        simp only [List.length_cons] at this hlen
        omega
      · intro c hc
        exact hmem c (trimRightGo_mem isTrimCut (x :: rest) c (hr ▸ List.mem_cons_of_mem x hc))

/-- C5: the tag normalizer returns the empty string or a string matching
the anchored pattern of a first character in `[a-z0-9_]` followed by at
most 127 characters in `[a-z0-9._-]`. -/
theorem c5_normalize_tag_matches_pattern :
    ∀ s : GoStr, normalizeTagForOCI s = [] ∨ matchesOCITagPattern (normalizeTagForOCI s) := by
  intro s
  unfold normalizeTagForOCI
  split_ifs with hs
  · exact Or.inl rfl
  · cases hcrep : replaceTagChars true (s.map goToLowerChar) with
    | nil => exact Or.inl rfl
    | cons c rest =>
      have hrepmem : ∀ x ∈ c :: rest, validTagChar x := by
        intro x hx
        exact replaceTagChars_all_valid true (s.map goToLowerChar) x (hcrep ▸ hx)
      simp only [ensureValidStart, truncate128]
      split_ifs with hvalid hbig hbig
      · -- first character already valid, truncated
        refine trim_stage_matches _ ?_ ?_ ?_
        · intro y hy
          exact hrepmem y (List.take_subset 128 (c :: rest) hy)
        · intro y r2 hyr
          have h128 : (128 : Nat) = 127 + 1 := rfl
          rw [h128, List.take_succ_cons] at hyr
          cases hyr
          exact hvalid
        · simp [List.length_take]
      · -- first character already valid, not truncated
        refine trim_stage_matches _ hrepmem ?_ ?_
        · intro y r2 hyr
          cases hyr
          exact hvalid
        · omega
      · -- prefixed underscore, truncated
        refine trim_stage_matches _ ?_ ?_ ?_
        · intro y hy
          have hy2 := List.take_subset 128 ('_' :: c :: rest) hy
          rcases List.mem_cons.mp hy2 with h | h
          · rw [h]; decide
          · exact hrepmem y h
        · intro y r2 hyr
          have h128 : (128 : Nat) = 127 + 1 := rfl
          rw [h128, List.take_succ_cons] at hyr
          cases hyr
          decide
        · simp [List.length_take]
      · -- prefixed underscore, not truncated
        refine trim_stage_matches _ ?_ ?_ ?_
        · intro y hy
          rcases List.mem_cons.mp hy with h | h
          · rw [h]; decide
          · exact hrepmem y h
        · intro y r2 hyr
          cases hyr
          decide
        · omega

/-- Helper: successive filters against a seen-set and against one more
element combine into a filter against the extended seen-set. -/
theorem filter_notmem_cons (t : GoStr) (seen : List GoStr) :
    ∀ rest : List GoStr,
      ((rest.filter fun x => decide (x ∉ seen)).filter fun x => decide (x ≠ t)) =
        rest.filter fun x => decide (x ∉ t :: seen) := by
  intro rest
  rw [List.filter_filter]
  apply List.filter_congr
  intro a _
  by_cases ha : a = t <;> by_cases hb : a ∈ seen <;> simp [ha, hb]

/-- Helper: the Go deduplication loop with seen-set equals first-occurrence
deduplication of the not-yet-seen elements. -/
theorem removeDupGo_eq_keepFirst :
    ∀ l seen : List GoStr,
      removeDupGo seen l = keepFirstNonempty (l.filter fun x => decide (x ∉ seen)) := by
  intro l
  induction l with
  | nil => intro seen; simp [removeDupGo, keepFirstNonempty]
  | cons t rest ih =>
    intro seen
    by_cases ht : t = []
    · subst ht
      by_cases hs : ([] : GoStr) ∈ seen <;>
        simp [removeDupGo, List.filter_cons, hs, ih, keepFirstNonempty]
    · by_cases hs : t ∈ seen
      · simp [removeDupGo, ht, hs, List.filter_cons, ih]
      · simp only [removeDupGo, ht, hs, not_false_iff, and_true, if_pos,
          List.filter_cons, decide_not, List.mem_cons]
        rw [ih (t :: seen)]
        simp [keepFirstNonempty, ht, hs, filter_notmem_cons, List.mem_cons]

/-- Helper: removeDuplicateTags is first-occurrence deduplication. -/
theorem removeDuplicateTags_eq_keepFirst (l : List GoStr) :
    removeDuplicateTags l = keepFirstNonempty l := by
  unfold removeDuplicateTags
  rw [removeDupGo_eq_keepFirst]
  congr 1
  exact List.filter_eq_self.mpr (by simp)

/-- Helper: first-occurrence deduplication yields a subsequence of its
input. -/
theorem keepFirst_sublist : ∀ l : List GoStr, List.Sublist (keepFirstNonempty l) l := by
  intro l
  induction l using keepFirstNonempty.induct with
  | case1 => rw [keepFirstNonempty]
  | case2 rest ih =>
    rw [keepFirstNonempty, if_pos rfl]
    exact ih.cons []
  | case3 t rest ht ih =>
    rw [keepFirstNonempty, if_neg ht]
    exact (ih.trans (List.filter_sublist rest)).cons₂ t

/-- Helper: first-occurrence deduplication has no duplicates. -/
theorem keepFirst_nodup : ∀ l : List GoStr, (keepFirstNonempty l).Nodup := by
  intro l
  induction l using keepFirstNonempty.induct with
  | case1 => rw [keepFirstNonempty]; exact List.nodup_nil
  | case2 rest ih =>
    rw [keepFirstNonempty, if_pos rfl]
    exact ih
  | case3 t rest ht ih =>
    rw [keepFirstNonempty, if_neg ht]
    refine List.nodup_cons.mpr ⟨?_, ih⟩
    intro hmem
    have := (keepFirst_sublist _).subset hmem
    simp at this

/-- C6: the tag planner's output is the first-occurrence deduplication of
the five ordered groups (CID first, then name, capability, infrastructure,
team), truncated to MaxTagsPerRecord after deduplication; it has no
duplicates, is a subsequence of the planned group order, respects the tag
budget, starts with the CID tag when content-addressable tagging applies,
and the default budget is 20. -/
theorem c6_tag_planner_order_dedup_truncation :
    ∀ (md : Metadata) (cid : GoStr) (strat : TagStrategy),
      (generateTagsFromMetadata md cid strat =
        (if strat.maxTagsPerRecord > 0 ∧
            ((keepFirstNonempty (plannedTags md cid strat)).length : Int) >
              strat.maxTagsPerRecord
         then (keepFirstNonempty (plannedTags md cid strat)).take
            strat.maxTagsPerRecord.toNat
         else keepFirstNonempty (plannedTags md cid strat))) ∧
      (generateTagsFromMetadata md cid strat).Nodup ∧
      List.Sublist (generateTagsFromMetadata md cid strat) (plannedTags md cid strat) ∧
      (0 < strat.maxTagsPerRecord →
        ((generateTagsFromMetadata md cid strat).length : Int) ≤ strat.maxTagsPerRecord) ∧
      (strat.enableContentAddressable = true → cid ≠ [] →
        normalizeTagForOCI cid ≠ [] →
        (generateTagsFromMetadata md cid strat).head? = some (normalizeTagForOCI cid)) ∧
      DefaultTagStrategy.maxTagsPerRecord = 20 := by
  intro md cid strat
  have hgen : generateTagsFromMetadata md cid strat =
      (if strat.maxTagsPerRecord > 0 ∧
          ((keepFirstNonempty (plannedTags md cid strat)).length : Int) >
            strat.maxTagsPerRecord
       then (keepFirstNonempty (plannedTags md cid strat)).take
          strat.maxTagsPerRecord.toNat
       else keepFirstNonempty (plannedTags md cid strat)) := by
    unfold generateTagsFromMetadata
    rw [removeDuplicateTags_eq_keepFirst]
  refine ⟨hgen, ?_, ?_, ?_, ?_, rfl⟩
  · rw [hgen]
    split_ifs with hc
    · exact List.Nodup.sublist (List.take_sublist _ _) (keepFirst_nodup _)
    · exact keepFirst_nodup _
  · rw [hgen]
    split_ifs with hc
    · exact (List.take_sublist _ _).trans (keepFirst_sublist _)
    · exact keepFirst_sublist _
  · intro hpos
    rw [hgen]
    split_ifs with hc
    · have hlen := List.length_take strat.maxTagsPerRecord.toNat
        (keepFirstNonempty (plannedTags md cid strat))
      rw [hlen]
      omega
    · omega
  · intro hca hcid hnorm
    have hplan : plannedTags md cid strat =
        normalizeTagForOCI cid ::
          (nameTagGroup md strat ++
            (capabilityTagGroup md strat ++
              (infraTagGroup md strat ++ teamTagGroup md strat))) := by
      unfold plannedTags cidTagGroup
      rw [if_pos ⟨hca, hcid⟩]
      rfl
    have hkeep : keepFirstNonempty (plannedTags md cid strat) =
        normalizeTagForOCI cid ::
          keepFirstNonempty
            ((nameTagGroup md strat ++
              (capabilityTagGroup md strat ++
                (infraTagGroup md strat ++ teamTagGroup md strat))).filter
              fun x => decide (x ≠ normalizeTagForOCI cid)) := by
      rw [hplan, keepFirstNonempty, if_neg hnorm]
    rw [hgen]
    split_ifs with hc
    · rw [hkeep]
      rcases Nat.exists_eq_add_of_lt (by omega : 0 < strat.maxTagsPerRecord.toNat)
        with ⟨k, hk⟩
      rw [hk]
      simp [List.take_succ_cons]
    · rw [hkeep]
      rfl

/-- Witness for C6 at a concrete metadata map and CID. -/
theorem c6_tag_planner_order_dedup_truncation_witness :
    (generateTagsFromMetadata [] ['c'] DefaultTagStrategy).head? =
        some (normalizeTagForOCI ['c']) ∧
      ((generateTagsFromMetadata [] ['c'] DefaultTagStrategy).length : Int) ≤
        DefaultTagStrategy.maxTagsPerRecord :=
  ⟨(c6_tag_planner_order_dedup_truncation [] ['c'] DefaultTagStrategy).2.2.2.2.1
      rfl (by decide) (by decide),
    (c6_tag_planner_order_dedup_truncation [] ['c'] DefaultTagStrategy).2.2.2.1
      (by decide)⟩

/-! ## Canonical round-trip machinery -/

/-- Helper: sortKeysPairs distributes over append. -/
theorem sortKeysPairs_append :
    ∀ a b : List (GoStr × Json), sortKeysPairs (a ++ b) = sortKeysPairs a ++ sortKeysPairs b := by
  intro a b
  induction a with
  | nil => rfl
  | cons kv rest ih => cases kv; simp [sortKeysPairs, ih]

/-- Helper: sortKeysList on a mapped list maps sortKeys over the images. -/
theorem sortKeysList_map {α : Type} (f : α → Json) :
    ∀ l : List α, sortKeysList (l.map f) = l.map fun x => sortKeys (f x) := by
  intro l
  induction l with
  | nil => rfl
  | cons x rest ih => simp [sortKeysList, ih]

/-- Helper: sortKeysPairs fixes string fields. -/
theorem sortKeysPairs_strField (k v : GoStr) :
    sortKeysPairs (strField k v) = strField k v := by
  unfold strField
  split <;> rfl

/-- Helper: sortKeysPairs fixes optional string fields. -/
theorem sortKeysPairs_optStrField (k : GoStr) (v : Option GoStr) :
    sortKeysPairs (optStrField k v) = optStrField k v := by
  cases v <;> rfl

/-- Helper: sortKeysPairs fixes optional integer fields. -/
theorem sortKeysPairs_optNumField (k : GoStr) (v : Option Nat) :
    sortKeysPairs (optNumField k v) = optNumField k v := by
  cases v <;> rfl

/-- Helper: sortKeysPairs on a conditional one-member block sorts the
member value. -/
theorem sortKeysPairs_ifblock (c : Prop) [Decidable c] (k : GoStr) (v : Json) :
    sortKeysPairs (if c then [] else [(k, v)]) =
      if c then [] else [(k, sortKeys v)] := by
  split <;> rfl

/-- Helper: sortKeysPairs fixes annotation members (their values are
strings). -/
theorem sortKeysPairs_annJson (l : List (GoStr × GoStr)) :
    sortKeysPairs (annJson l) = annJson l := by
  induction l with
  | nil => rfl
  | cons kv rest ih => cases kv; simp [annJson, sortKeysPairs, sortKeys] at ih ⊢; exact ih

/-- Helper: keys of a string-field block. -/
theorem strField_keys (k v : GoStr) : ∀ x ∈ strField k v, x.1 = k := by
  unfold strField; split <;> simp

/-- Helper: keys of an optional-string block. -/
theorem optStrField_keys (k : GoStr) (v : Option GoStr) :
    ∀ x ∈ optStrField k v, x.1 = k := by
  cases v <;> simp [optStrField]

/-- Helper: keys of an optional-integer block. -/
theorem optNumField_keys (k : GoStr) (v : Option Nat) :
    ∀ x ∈ optNumField k v, x.1 = k := by
  cases v <;> simp [optNumField]

/-- Helper: keys of a conditional one-member block. -/
theorem ifblock_keys (c : Prop) [Decidable c] (k : GoStr) (v : Json) :
    ∀ x ∈ (if c then ([] : List (GoStr × Json)) else [(k, v)]), x.1 = k := by
  split <;> simp

/-- Helper: a string-field block has at most one member. -/
theorem strField_small (k v : GoStr) : (strField k v).length ≤ 1 := by
  unfold strField; split <;> simp

/-- Helper: an optional-string block has at most one member. -/
theorem optStrField_small (k : GoStr) (v : Option GoStr) :
    (optStrField k v).length ≤ 1 := by
  cases v <;> simp [optStrField]

/-- Helper: an optional-integer block has at most one member. -/
theorem optNumField_small (k : GoStr) (v : Option Nat) :
    (optNumField k v).length ≤ 1 := by
  cases v <;> simp [optNumField]

/-- Helper: a conditional block has at most one member. -/
theorem ifblock_small (c : Prop) [Decidable c] (k : GoStr) (v : Json) :
    (if c then ([] : List (GoStr × Json)) else [(k, v)]).length ≤ 1 := by
  split <;> simp

/-- Helper: the join of key-homogeneous one-member blocks with ascending
keys is sorted by key. -/
theorem sorted_join_keyed :
    ∀ blocks : List (GoStr × List (GoStr × Json)),
      (∀ b ∈ blocks, ∀ x ∈ b.2, x.1 = b.1) →
      (∀ b ∈ blocks, b.2.length ≤ 1) →
      List.Pairwise (fun a b : GoStr × List (GoStr × Json) => a.1 ≤ b.1) blocks →
      List.Sorted keyPairLe (blocks.map Prod.snd).flatten := by
  intro blocks
  induction blocks with
  | nil => intro _ _ _; exact List.sorted_nil
  | cons hd tl ih =>
    intro hkeys hsmall hpair
    have hrest : List.Sorted keyPairLe (tl.map Prod.snd).flatten :=
      ih (fun b hb => hkeys b (List.mem_cons_of_mem _ hb))
        (fun b hb => hsmall b (List.mem_cons_of_mem _ hb)) hpair.of_cons
    have hlb : ∀ x ∈ (tl.map Prod.snd).flatten, hd.1 ≤ x.1 := by
      intro x hx
      rcases List.mem_flatten.mp hx with ⟨l, hl, hxl⟩
      rcases List.mem_map.mp hl with ⟨b, hb, rfl⟩
      have h1 : x.1 = b.1 := hkeys b (List.mem_cons_of_mem _ hb) x hxl
      have h2 : hd.1 ≤ b.1 := (List.pairwise_cons.mp hpair).1 b hb
      rw [h1]
      exact h2
    show List.Sorted keyPairLe (hd.2 ++ (tl.map Prod.snd).flatten)
    have hk := hkeys hd (List.mem_cons_self _ _)
    have hs := hsmall hd (List.mem_cons_self _ _)
    cases hb2 : hd.2 with
    | nil => simpa using hrest
    | cons y ys =>
      cases ys with
      | nil =>
        rw [List.singleton_append]
        refine List.sorted_cons.mpr ⟨?_, hrest⟩
        intro b hb
        show y.1 ≤ b.1
        rw [hk y (by simp [hb2])]
        exact hlb b hb
      | cons z zs =>
        rw [hb2] at hs
        simp at hs

/-- Helper: the emitted skill fields are sorted by key. -/
theorem sorted_skillFields (s : Skill) :
    List.Sorted keyPairLe (skillFields s) := by
  have h := sorted_join_keyed
    [(kCategory, optStrField kCategory s.category),
      (kClass, optStrField kClass s.classVal),
      (kId, optNumField kId s.id),
      (kName, optStrField kName s.name)]
    (by
      intro b hb
      simp only [List.mem_cons, List.not_mem_nil, or_false] at hb
      rcases hb with rfl | rfl | rfl | rfl
      · exact optStrField_keys _ _
      · exact optStrField_keys _ _
      · exact optNumField_keys _ _
      · exact optStrField_keys _ _)
    (by
      intro b hb
      simp only [List.mem_cons, List.not_mem_nil, or_false] at hb
      rcases hb with rfl | rfl | rfl | rfl
      · exact optStrField_small _ _
      · exact optStrField_small _ _
      · exact optNumField_small _ _
      · exact optStrField_small _ _)
    (List.pairwise_map.mp
      (show List.Pairwise (fun a b : GoStr => a ≤ b)
          [kCategory, kClass, kId, kName] from by decide))
  simpa [skillFields, List.flatten] using h

/-- Helper: the emitted extension fields are sorted by key. -/
theorem sorted_extensionFields (e : Extension) :
    List.Sorted keyPairLe (extensionFields e) := by
  have h := sorted_join_keyed
    [(kData, optStrField kData e.data),
      (kName, strField kName e.name),
      (kVersion, strField kVersion e.version)]
    (by
      intro b hb
      simp only [List.mem_cons, List.not_mem_nil, or_false] at hb
      rcases hb with rfl | rfl | rfl
      · exact optStrField_keys _ _
      · exact strField_keys _ _
      · exact strField_keys _ _)
    (by
      intro b hb
      simp only [List.mem_cons, List.not_mem_nil, or_false] at hb
      rcases hb with rfl | rfl | rfl
      · exact optStrField_small _ _
      · exact strField_small _ _
      · exact strField_small _ _)
    (List.pairwise_map.mp
      (show List.Pairwise (fun a b : GoStr => a ≤ b)
          [kData, kName, kVersion] from by decide))
  simpa [extensionFields, List.flatten] using h

/-- Helper: the emitted locator fields are sorted by key. -/
theorem sorted_locatorFields (l : Locator) :
    List.Sorted keyPairLe (locatorFields l) := by
  have h := sorted_join_keyed
    [(kType, strField kType l.type), (kUrl, strField kUrl l.url)]
    (by
      intro b hb
      simp only [List.mem_cons, List.not_mem_nil, or_false] at hb
      rcases hb with rfl | rfl
      · exact strField_keys _ _
      · exact strField_keys _ _)
    (by
      intro b hb
      simp only [List.mem_cons, List.not_mem_nil, or_false] at hb
      rcases hb with rfl | rfl
      · exact strField_small _ _
      · exact strField_small _ _)
    (List.pairwise_map.mp
      (show List.Pairwise (fun a b : GoStr => a ≤ b) [kType, kUrl] from by decide))
  simpa [locatorFields, List.flatten] using h

/-- Helper: the emitted payload fields are sorted by key. -/
theorem sorted_payloadFields (p : RecordPayload) :
    List.Sorted keyPairLe (payloadFields p) := by
  have h := sorted_join_keyed
    [(kAnnotations,
        if p.annotations = [] then []
        else [(kAnnotations, Json.obj (annJson p.annotations))]),
      (kDescription, strField kDescription p.description),
      (kExtensions,
        if p.extensions = [] then []
        else [(kExtensions, Json.arr (p.extensions.map extensionJson))]),
      (kLocators,
        if p.locators = [] then []
        else [(kLocators, Json.arr (p.locators.map locatorJson))]),
      (kName, strField kName p.name),
      (kSchemaVersion, strField kSchemaVersion p.schemaVersion),
      (kSignature, optStrField kSignature p.signature),
      (kSkills,
        if p.skills = [] then []
        else [(kSkills, Json.arr (p.skills.map skillJson))]),
      (kVersion, strField kVersion p.version)]
    (by
      intro b hb
      simp only [List.mem_cons, List.not_mem_nil, or_false] at hb
      rcases hb with rfl | rfl | rfl | rfl | rfl | rfl | rfl | rfl | rfl
      · exact ifblock_keys _ _ _
      · exact strField_keys _ _
      · exact ifblock_keys _ _ _
      · exact ifblock_keys _ _ _
      · exact strField_keys _ _
      · exact strField_keys _ _
      · exact optStrField_keys _ _
      · exact ifblock_keys _ _ _
      · exact strField_keys _ _)
    (by
      intro b hb
      simp only [List.mem_cons, List.not_mem_nil, or_false] at hb
      rcases hb with rfl | rfl | rfl | rfl | rfl | rfl | rfl | rfl | rfl
      · exact ifblock_small _ _ _
      · exact strField_small _ _
      · exact ifblock_small _ _ _
      · exact ifblock_small _ _ _
      · exact strField_small _ _
      · exact strField_small _ _
      · exact optStrField_small _ _
      · exact ifblock_small _ _ _
      · exact strField_small _ _)
    (List.pairwise_map.mp
      (show List.Pairwise (fun a b : GoStr => a ≤ b)
          [kAnnotations, kDescription, kExtensions, kLocators, kName,
            kSchemaVersion, kSignature, kSkills, kVersion] from by decide))
  simpa [payloadFields, List.flatten] using h

/-- Helper: key sorting fixes a skill object (its fields are emitted
sorted and its values are atomic). -/
theorem sortKeys_skillJson (s : Skill) : sortKeys (skillJson s) = skillJson s := by
  rw [skillJson, sortKeys]
  rw [show sortKeysPairs (skillFields s) = skillFields s by
    simp only [skillFields, sortKeysPairs_append, sortKeysPairs_optStrField,
      sortKeysPairs_optNumField]]
  rw [(sorted_skillFields s).insertionSort_eq]

/-- Helper: key sorting fixes an extension object. -/
theorem sortKeys_extensionJson (e : Extension) :
    sortKeys (extensionJson e) = extensionJson e := by
  rw [extensionJson, sortKeys]
  rw [show sortKeysPairs (extensionFields e) = extensionFields e by
    simp only [extensionFields, sortKeysPairs_append, sortKeysPairs_optStrField,
      sortKeysPairs_strField]]
  rw [(sorted_extensionFields e).insertionSort_eq]

/-- Helper: key sorting fixes a locator object. -/
theorem sortKeys_locatorJson (l : Locator) :
    sortKeys (locatorJson l) = locatorJson l := by
  rw [locatorJson, sortKeys]
  rw [show sortKeysPairs (locatorFields l) = locatorFields l by
    simp only [locatorFields, sortKeysPairs_append, sortKeysPairs_strField]]
  rw [(sorted_locatorFields l).insertionSort_eq]

/-- Helper: key sorting fixes an array of skill objects. -/
theorem sortKeys_skillArr (l : List Skill) :
    sortKeys (Json.arr (l.map skillJson)) = Json.arr (l.map skillJson) := by
  rw [sortKeys, sortKeysList_map]
  simp [sortKeys_skillJson]

/-- Helper: key sorting fixes an array of extension objects. -/
theorem sortKeys_extensionArr (l : List Extension) :
    sortKeys (Json.arr (l.map extensionJson)) = Json.arr (l.map extensionJson) := by
  rw [sortKeys, sortKeysList_map]
  simp [sortKeys_extensionJson]

/-- Helper: key sorting fixes an array of locator objects. -/
theorem sortKeys_locatorArr (l : List Locator) :
    sortKeys (Json.arr (l.map locatorJson)) = Json.arr (l.map locatorJson) := by
  rw [sortKeys, sortKeysList_map]
  simp [sortKeys_locatorJson]

/-- Helper: key sorting of the annotations object sorts its entries by
key. -/
theorem sortKeys_annObj (l : List (GoStr × GoStr)) :
    sortKeys (Json.obj (annJson l)) =
      Json.obj (annJson (List.insertionSort annPairLe l)) := by
  rw [sortKeys, sortKeysPairs_annJson]
  congr 1
  have h := List.map_insertionSort annPairLe keyPairLe
    (fun kv : GoStr × GoStr => (kv.1, Json.str kv.2)) l (fun _ _ _ _ => Iff.rfl)
  exact h.symm

/-- Helper: an insertion sort is empty exactly when its input is. -/
theorem insort_ann_eq_nil (l : List (GoStr × GoStr)) :
    (List.insertionSort annPairLe l = []) = (l = []) := by
  apply propext
  rw [← List.length_eq_zero, List.length_insertionSort, List.length_eq_zero]

/-- Helper: sortKeysPairs turns the payload fields of `p` into the payload
fields of `p` with sorted annotations. -/
theorem sortKeysPairs_payloadFields (p : RecordPayload) :
    sortKeysPairs (payloadFields p) = payloadFields (normAnnPayload p) := by
  simp only [payloadFields, sortKeysPairs_append, sortKeysPairs_strField,
    sortKeysPairs_optStrField, sortKeysPairs_ifblock, normAnnPayload,
    sortKeys_annObj, sortKeys_skillArr, sortKeys_extensionArr,
    sortKeys_locatorArr, insort_ann_eq_nil]

/-- Helper: key sorting turns the payload tree of `p` into the payload
tree of `p` with sorted annotations. -/
theorem sortKeys_payloadJson (p : RecordPayload) :
    sortKeys (payloadJson p) = payloadJson (normAnnPayload p) := by
  rw [payloadJson, sortKeys, sortKeysPairs_payloadFields,
    (sorted_payloadFields _).insertionSort_eq]
  rfl

/-- Helper: sorting the annotations twice is the same as sorting once. -/
theorem normAnnPayload_idem (p : RecordPayload) :
    normAnnPayload (normAnnPayload p) = normAnnPayload p := by
  unfold normAnnPayload
  simp [(List.sorted_insertionSort annPairLe p.annotations).insertionSort_eq]

/-- Helper: association lookup distributes over append. -/
theorem assocFind_append (k : GoStr) :
    ∀ a b : List (GoStr × Json), assocFind k (a ++ b) = (assocFind k a).or (assocFind k b) := by
  intro a b
  induction a with
  | nil => simp [assocFind, Option.none_or]
  | cons kv rest ih =>
    cases kv with
    | mk k2 v => by_cases h : k = k2 <;> simp [assocFind, h, ih, Option.or]

/-- Helper: lookup misses a block whose members all carry another key. -/
theorem assocFind_none_of_keys (k k2 : GoStr) (hk : k ≠ k2) :
    ∀ b : List (GoStr × Json), (∀ x ∈ b, x.1 = k2) → assocFind k b = none := by
  intro b
  induction b with
  | nil => intro _; rfl
  | cons kv rest ih =>
    intro h
    cases kv with
    | mk k3 v =>
      have h3 : k3 = k2 := h (k3, v) (by simp)
      rw [assocFind, if_neg (by rw [h3]; exact hk)]
      exact ih fun x hx => h x (List.mem_cons_of_mem _ hx)

/-- Helper: lookup misses a string-field block with another key. -/
theorem assocFind_strField_ne (k k2 : GoStr) (hk : k ≠ k2) (v : GoStr) :
    assocFind k (strField k2 v) = none :=
  assocFind_none_of_keys k k2 hk _ (strField_keys k2 v)

/-- Helper: lookup misses an optional-string block with another key. -/
theorem assocFind_optStrField_ne (k k2 : GoStr) (hk : k ≠ k2) (v : Option GoStr) :
    assocFind k (optStrField k2 v) = none :=
  assocFind_none_of_keys k k2 hk _ (optStrField_keys k2 v)

/-- Helper: lookup misses an optional-integer block with another key. -/
theorem assocFind_optNumField_ne (k k2 : GoStr) (hk : k ≠ k2) (v : Option Nat) :
    assocFind k (optNumField k2 v) = none :=
  assocFind_none_of_keys k k2 hk _ (optNumField_keys k2 v)

/-- Helper: lookup misses a conditional block with another key. -/
theorem assocFind_ifblock_ne (k k2 : GoStr) (hk : k ≠ k2) (c : Prop) [Decidable c]
    (v : Json) : assocFind k (if c then [] else [(k2, v)]) = none :=
  assocFind_none_of_keys k k2 hk _ (ifblock_keys c k2 v)

/-- Helper: lookup hits a string-field block with its key. -/
theorem assocFind_strField_self (k v : GoStr) :
    assocFind k (strField k v) = if v = [] then none else some (.str v) := by
  unfold strField
  split <;> simp [assocFind]

/-- Helper: lookup hits an optional-string block with its key. -/
theorem assocFind_optStrField_self (k : GoStr) (v : Option GoStr) :
    assocFind k (optStrField k v) = v.map Json.str := by
  cases v <;> simp [optStrField, assocFind]

/-- Helper: lookup hits an optional-integer block with its key. -/
theorem assocFind_optNumField_self (k : GoStr) (v : Option Nat) :
    assocFind k (optNumField k v) = v.map Json.num := by
  cases v <;> simp [optNumField, assocFind]

/-- Helper: lookup hits a conditional block with its key. -/
theorem assocFind_ifblock_self (k : GoStr) (c : Prop) [Decidable c] (v : Json) :
    assocFind k (if c then [] else [(k, v)]) = if c then none else some v := by
  split <;> simp [assocFind]

/-- Helper: payload lookup of the annotations field. -/
theorem af_payload_annotations (q : RecordPayload) :
    assocFind kAnnotations (payloadFields q) =
      if q.annotations = [] then none else some (.obj (annJson q.annotations)) := by
  simp only [payloadFields, assocFind_append,
    assocFind_ifblock_self,
    assocFind_strField_ne kAnnotations kDescription (by decide),
    assocFind_ifblock_ne kAnnotations kExtensions (by decide),
    assocFind_ifblock_ne kAnnotations kLocators (by decide),
    assocFind_strField_ne kAnnotations kName (by decide),
    assocFind_strField_ne kAnnotations kSchemaVersion (by decide),
    assocFind_optStrField_ne kAnnotations kSignature (by decide),
    assocFind_ifblock_ne kAnnotations kSkills (by decide),
    assocFind_strField_ne kAnnotations kVersion (by decide),
    Option.none_or, Option.or_none]

/-- Helper: payload lookup of the description field. -/
theorem af_payload_description (q : RecordPayload) :
    assocFind kDescription (payloadFields q) =
      if q.description = [] then none else some (.str q.description) := by
  simp only [payloadFields, assocFind_append,
    assocFind_ifblock_ne kDescription kAnnotations (by decide),
    assocFind_strField_self,
    assocFind_ifblock_ne kDescription kExtensions (by decide),
    assocFind_ifblock_ne kDescription kLocators (by decide),
    assocFind_strField_ne kDescription kName (by decide),
    assocFind_strField_ne kDescription kSchemaVersion (by decide),
    assocFind_optStrField_ne kDescription kSignature (by decide),
    assocFind_ifblock_ne kDescription kSkills (by decide),
    assocFind_strField_ne kDescription kVersion (by decide),
    Option.none_or, Option.or_none]

/-- Helper: payload lookup of the extensions field. -/
theorem af_payload_extensions (q : RecordPayload) :
    assocFind kExtensions (payloadFields q) =
      if q.extensions = [] then none
      else some (.arr (q.extensions.map extensionJson)) := by
  simp only [payloadFields, assocFind_append,
    assocFind_ifblock_ne kExtensions kAnnotations (by decide),
    assocFind_strField_ne kExtensions kDescription (by decide),
    assocFind_ifblock_self,
    assocFind_ifblock_ne kExtensions kLocators (by decide),
    assocFind_strField_ne kExtensions kName (by decide),
    assocFind_strField_ne kExtensions kSchemaVersion (by decide),
    assocFind_optStrField_ne kExtensions kSignature (by decide),
    assocFind_ifblock_ne kExtensions kSkills (by decide),
    assocFind_strField_ne kExtensions kVersion (by decide),
    Option.none_or, Option.or_none]

/-- Helper: payload lookup of the locators field. -/
theorem af_payload_locators (q : RecordPayload) :
    assocFind kLocators (payloadFields q) =
      if q.locators = [] then none
      else some (.arr (q.locators.map locatorJson)) := by
  simp only [payloadFields, assocFind_append,
    assocFind_ifblock_ne kLocators kAnnotations (by decide),
    assocFind_strField_ne kLocators kDescription (by decide),
    assocFind_ifblock_ne kLocators kExtensions (by decide),
    assocFind_ifblock_self,
    assocFind_strField_ne kLocators kName (by decide),
    assocFind_strField_ne kLocators kSchemaVersion (by decide),
    assocFind_optStrField_ne kLocators kSignature (by decide),
    assocFind_ifblock_ne kLocators kSkills (by decide),
    assocFind_strField_ne kLocators kVersion (by decide),
    Option.none_or, Option.or_none]

/-- Helper: payload lookup of the name field. -/
theorem af_payload_name (q : RecordPayload) :
    assocFind kName (payloadFields q) =
      if q.name = [] then none else some (.str q.name) := by
  simp only [payloadFields, assocFind_append,
    assocFind_ifblock_ne kName kAnnotations (by decide),
    assocFind_strField_ne kName kDescription (by decide),
    assocFind_ifblock_ne kName kExtensions (by decide),
    assocFind_ifblock_ne kName kLocators (by decide),
    assocFind_strField_self,
    assocFind_strField_ne kName kSchemaVersion (by decide),
    assocFind_optStrField_ne kName kSignature (by decide),
    assocFind_ifblock_ne kName kSkills (by decide),
    assocFind_strField_ne kName kVersion (by decide),
    Option.none_or, Option.or_none]

/-- Helper: payload lookup of the schema_version field. -/
theorem af_payload_schemaVersion (q : RecordPayload) :
    assocFind kSchemaVersion (payloadFields q) =
      if q.schemaVersion = [] then none else some (.str q.schemaVersion) := by
  simp only [payloadFields, assocFind_append,
    assocFind_ifblock_ne kSchemaVersion kAnnotations (by decide),
    assocFind_strField_ne kSchemaVersion kDescription (by decide),
    assocFind_ifblock_ne kSchemaVersion kExtensions (by decide),
    assocFind_ifblock_ne kSchemaVersion kLocators (by decide),
    assocFind_strField_ne kSchemaVersion kName (by decide),
    assocFind_strField_self,
    assocFind_optStrField_ne kSchemaVersion kSignature (by decide),
    assocFind_ifblock_ne kSchemaVersion kSkills (by decide),
    assocFind_strField_ne kSchemaVersion kVersion (by decide),
    Option.none_or, Option.or_none]

/-- Helper: payload lookup of the signature field. -/
theorem af_payload_signature (q : RecordPayload) :
    assocFind kSignature (payloadFields q) = q.signature.map Json.str := by
  simp only [payloadFields, assocFind_append,
    assocFind_ifblock_ne kSignature kAnnotations (by decide),
    assocFind_strField_ne kSignature kDescription (by decide),
    assocFind_ifblock_ne kSignature kExtensions (by decide),
    assocFind_ifblock_ne kSignature kLocators (by decide),
    assocFind_strField_ne kSignature kName (by decide),
    assocFind_strField_ne kSignature kSchemaVersion (by decide),
    assocFind_optStrField_self,
    assocFind_ifblock_ne kSignature kSkills (by decide),
    assocFind_strField_ne kSignature kVersion (by decide),
    Option.none_or, Option.or_none]

/-- Helper: payload lookup of the skills field. -/
theorem af_payload_skills (q : RecordPayload) :
    assocFind kSkills (payloadFields q) =
      if q.skills = [] then none else some (.arr (q.skills.map skillJson)) := by
  simp only [payloadFields, assocFind_append,
    assocFind_ifblock_ne kSkills kAnnotations (by decide),
    assocFind_strField_ne kSkills kDescription (by decide),
    assocFind_ifblock_ne kSkills kExtensions (by decide),
    assocFind_ifblock_ne kSkills kLocators (by decide),
    assocFind_strField_ne kSkills kName (by decide),
    assocFind_strField_ne kSkills kSchemaVersion (by decide),
    assocFind_optStrField_ne kSkills kSignature (by decide),
    assocFind_ifblock_self,
    assocFind_strField_ne kSkills kVersion (by decide),
    Option.none_or, Option.or_none]

/-- Helper: payload lookup of the version field. -/
theorem af_payload_version (q : RecordPayload) :
    assocFind kVersion (payloadFields q) =
      if q.version = [] then none else some (.str q.version) := by
  simp only [payloadFields, assocFind_append,
    assocFind_ifblock_ne kVersion kAnnotations (by decide),
    assocFind_strField_ne kVersion kDescription (by decide),
    assocFind_ifblock_ne kVersion kExtensions (by decide),
    assocFind_ifblock_ne kVersion kLocators (by decide),
    assocFind_strField_ne kVersion kName (by decide),
    assocFind_strField_ne kVersion kSchemaVersion (by decide),
    assocFind_optStrField_ne kVersion kSignature (by decide),
    assocFind_ifblock_ne kVersion kSkills (by decide),
    assocFind_strField_self,
    Option.none_or, Option.or_none]

/-- Helper: skill lookup of the category field. -/
theorem af_skill_category (s : Skill) :
    assocFind kCategory (skillFields s) = s.category.map Json.str := by
  simp only [skillFields, assocFind_append, assocFind_optStrField_self,
    assocFind_optStrField_ne kCategory kClass (by decide),
    assocFind_optNumField_ne kCategory kId (by decide),
    assocFind_optStrField_ne kCategory kName (by decide),
    Option.none_or, Option.or_none]

/-- Helper: skill lookup of the class field. -/
theorem af_skill_class (s : Skill) :
    assocFind kClass (skillFields s) = s.classVal.map Json.str := by
  simp only [skillFields, assocFind_append, assocFind_optStrField_self,
    assocFind_optStrField_ne kClass kCategory (by decide),
    assocFind_optNumField_ne kClass kId (by decide),
    assocFind_optStrField_ne kClass kName (by decide),
    Option.none_or, Option.or_none]

/-- Helper: skill lookup of the id field. -/
theorem af_skill_id (s : Skill) :
    assocFind kId (skillFields s) = s.id.map Json.num := by
  simp only [skillFields, assocFind_append, assocFind_optNumField_self,
    assocFind_optStrField_ne kId kCategory (by decide),
    assocFind_optStrField_ne kId kClass (by decide),
    assocFind_optStrField_ne kId kName (by decide),
    Option.none_or, Option.or_none]

/-- Helper: skill lookup of the name field. -/
theorem af_skill_name (s : Skill) :
    assocFind kName (skillFields s) = s.name.map Json.str := by
  simp only [skillFields, assocFind_append, assocFind_optStrField_self,
    assocFind_optStrField_ne kName kCategory (by decide),
    assocFind_optStrField_ne kName kClass (by decide),
    assocFind_optNumField_ne kName kId (by decide),
    Option.none_or, Option.or_none]

/-- Helper: extension lookup of the data field. -/
theorem af_extension_data (e : Extension) :
    assocFind kData (extensionFields e) = e.data.map Json.str := by
  simp only [extensionFields, assocFind_append, assocFind_optStrField_self,
    assocFind_strField_ne kData kName (by decide),
    assocFind_strField_ne kData kVersion (by decide),
    Option.none_or, Option.or_none]

/-- Helper: extension lookup of the name field. -/
theorem af_extension_name (e : Extension) :
    assocFind kName (extensionFields e) =
      if e.name = [] then none else some (.str e.name) := by
  simp only [extensionFields, assocFind_append, assocFind_strField_self,
    assocFind_optStrField_ne kName kData (by decide),
    assocFind_strField_ne kName kVersion (by decide),
    Option.none_or, Option.or_none]

/-- Helper: extension lookup of the version field. -/
theorem af_extension_version (e : Extension) :
    assocFind kVersion (extensionFields e) =
      if e.version = [] then none else some (.str e.version) := by
  simp only [extensionFields, assocFind_append, assocFind_strField_self,
    assocFind_optStrField_ne kVersion kData (by decide),
    assocFind_strField_ne kVersion kName (by decide),
    Option.none_or, Option.or_none]

/-- Helper: locator lookup of the type field. -/
theorem af_locator_type (l : Locator) :
    assocFind kType (locatorFields l) =
      if l.type = [] then none else some (.str l.type) := by
  simp only [locatorFields, assocFind_append, assocFind_strField_self,
    assocFind_strField_ne kType kUrl (by decide),
    Option.none_or, Option.or_none]

/-- Helper: locator lookup of the url field. -/
theorem af_locator_url (l : Locator) :
    assocFind kUrl (locatorFields l) =
      if l.url = [] then none else some (.str l.url) := by
  simp only [locatorFields, assocFind_append, assocFind_strField_self,
    assocFind_strField_ne kUrl kType (by decide),
    Option.none_or, Option.or_none]

/-- Helper: reading back an emitted plain string field. -/
theorem parseStrF_round (v : GoStr) :
    parseStrF (if v = [] then none else some (.str v)) = some v := by
  split_ifs with h <;> simp [parseStrF, h]

/-- Helper: reading back an emitted optional string field. -/
theorem parseOptStrF_round (v : Option GoStr) :
    parseOptStrF (v.map Json.str) = some v := by
  cases v <;> simp [parseOptStrF]

/-- Helper: reading back an emitted optional integer field. -/
theorem parseOptNumF_round (v : Option Nat) :
    parseOptNumF (v.map Json.num) = some v := by
  cases v <;> simp [parseOptNumF]

/-- Helper: reading back emitted annotations entries. -/
theorem parseAnn_mapM (l : List (GoStr × GoStr)) :
    (annJson l).mapM parseAnnEntry = some l := by
  induction l with
  | nil => rfl
  | cons kv rest ih =>
    cases kv with
    | mk k v =>
      rw [show annJson ((k, v) :: rest) = (k, Json.str v) :: annJson rest from rfl]
      rw [List.mapM_cons]
      simp only [ih, parseAnnEntry, Option.bind_eq_bind, Option.some_bind]
      rfl

/-- Helper: reading back the emitted annotations field. -/
theorem parseAnnF_round (l : List (GoStr × GoStr)) :
    parseAnnF (if l = [] then none else some (.obj (annJson l))) = some l := by
  split_ifs with h
  · simp [parseAnnF, h]
  · exact parseAnn_mapM l

/-- Helper: the keys of the emitted skill fields are all known. -/
theorem skillFields_all (s : Skill) :
    ((skillFields s).all fun kv => decide (kv.1 ∈ skillKeys)) = true := by
  rw [List.all_eq_true]
  simp only [skillFields]
  refine List.forall_mem_append.mpr ⟨?_, List.forall_mem_append.mpr
    ⟨?_, List.forall_mem_append.mpr ⟨?_, ?_⟩⟩⟩ <;>
    intro x hx
  · rw [optStrField_keys _ _ x hx]; decide
  · rw [optStrField_keys _ _ x hx]; decide
  · rw [optNumField_keys _ _ x hx]; decide
  · rw [optStrField_keys _ _ x hx]; decide

/-- Helper: reading back an emitted skill object. -/
theorem parseSkill_round (s : Skill) : parseSkill (skillJson s) = some s := by
  simp only [skillJson, parseSkill, skillFields_all, if_true,
    af_skill_category, af_skill_class, af_skill_id, af_skill_name,
    parseOptStrF_round, parseOptNumF_round, Option.bind_eq_bind, Option.some_bind]
  rfl

/-- Helper: the keys of the emitted extension fields are all known. -/
theorem extensionFields_all (e : Extension) :
    ((extensionFields e).all fun kv => decide (kv.1 ∈ extensionKeys)) = true := by
  rw [List.all_eq_true]
  simp only [extensionFields]
  refine List.forall_mem_append.mpr ⟨?_, List.forall_mem_append.mpr ⟨?_, ?_⟩⟩ <;>
    intro x hx
  · rw [optStrField_keys _ _ x hx]; decide
  · rw [strField_keys _ _ x hx]; decide
  · rw [strField_keys _ _ x hx]; decide

/-- Helper: reading back an emitted extension object. -/
theorem parseExtension_round (e : Extension) :
    parseExtension (extensionJson e) = some e := by
  simp only [extensionJson, parseExtension, extensionFields_all, if_true,
    af_extension_data, af_extension_name, af_extension_version,
    parseOptStrF_round, parseStrF_round, Option.bind_eq_bind, Option.some_bind]
  rfl

/-- Helper: the keys of the emitted locator fields are all known. -/
theorem locatorFields_all (l : Locator) :
    ((locatorFields l).all fun kv => decide (kv.1 ∈ locatorKeys)) = true := by
  rw [List.all_eq_true]
  simp only [locatorFields]
  refine List.forall_mem_append.mpr ⟨?_, ?_⟩ <;> intro x hx
  · rw [strField_keys _ _ x hx]; decide
  · rw [strField_keys _ _ x hx]; decide

/-- Helper: reading back an emitted locator object. -/
theorem parseLocator_round (l : Locator) :
    parseLocator (locatorJson l) = some l := by
  simp only [locatorJson, parseLocator, locatorFields_all, if_true,
    af_locator_type, af_locator_url, parseStrF_round, Option.bind_eq_bind, Option.some_bind]
  rfl

/-- Helper: reading back emitted skill arrays. -/
theorem parseSkills_mapM (l : List Skill) :
    (l.map skillJson).mapM parseSkill = some l := by
  induction l with
  | nil => rfl
  | cons s rest ih =>
    rw [List.map_cons, List.mapM_cons]
    simp only [ih, parseSkill_round, Option.bind_eq_bind, Option.some_bind]
    rfl

/-- Helper: reading back emitted extension arrays. -/
theorem parseExtensions_mapM (l : List Extension) :
    (l.map extensionJson).mapM parseExtension = some l := by
  induction l with
  | nil => rfl
  | cons e rest ih =>
    rw [List.map_cons, List.mapM_cons]
    simp only [ih, parseExtension_round, Option.bind_eq_bind, Option.some_bind]
    rfl

/-- Helper: reading back emitted locator arrays. -/
theorem parseLocators_mapM (l : List Locator) :
    (l.map locatorJson).mapM parseLocator = some l := by
  induction l with
  | nil => rfl
  | cons x rest ih =>
    rw [List.map_cons, List.mapM_cons]
    simp only [ih, parseLocator_round, Option.bind_eq_bind, Option.some_bind]
    rfl

/-- Helper: reading back the emitted skills field. -/
theorem parseSkillsF_round (l : List Skill) :
    parseSkillsF (if l = [] then none else some (.arr (l.map skillJson))) = some l := by
  split_ifs with h
  · simp [parseSkillsF, h]
  · exact parseSkills_mapM l

/-- Helper: reading back the emitted extensions field. -/
theorem parseExtensionsF_round (l : List Extension) :
    parseExtensionsF (if l = [] then none else some (.arr (l.map extensionJson))) =
      some l := by
  split_ifs with h
  · simp [parseExtensionsF, h]
  · exact parseExtensions_mapM l

/-- Helper: reading back the emitted locators field. -/
theorem parseLocatorsF_round (l : List Locator) :
    parseLocatorsF (if l = [] then none else some (.arr (l.map locatorJson))) =
      some l := by
  split_ifs with h
  · simp [parseLocatorsF, h]
  · exact parseLocators_mapM l

/-- Helper: the keys of the emitted payload fields are all known. -/
theorem payloadFields_all (p : RecordPayload) :
    ((payloadFields p).all fun kv => decide (kv.1 ∈ payloadKeys)) = true := by
  rw [List.all_eq_true]
  simp only [payloadFields]
  refine List.forall_mem_append.mpr ⟨?_, List.forall_mem_append.mpr
    ⟨?_, List.forall_mem_append.mpr ⟨?_, List.forall_mem_append.mpr
      ⟨?_, List.forall_mem_append.mpr ⟨?_, List.forall_mem_append.mpr
        ⟨?_, List.forall_mem_append.mpr ⟨?_, List.forall_mem_append.mpr
          ⟨?_, ?_⟩⟩⟩⟩⟩⟩⟩⟩ <;>
    intro x hx
  · rw [ifblock_keys _ _ _ x hx]; decide
  · rw [strField_keys _ _ x hx]; decide
  · rw [ifblock_keys _ _ _ x hx]; decide
  · rw [ifblock_keys _ _ _ x hx]; decide
  · rw [strField_keys _ _ x hx]; decide
  · rw [strField_keys _ _ x hx]; decide
  · rw [optStrField_keys _ _ x hx]; decide
  · rw [ifblock_keys _ _ _ x hx]; decide
  · rw [strField_keys _ _ x hx]; decide

/-- Helper: reading back an emitted payload object. -/
theorem parsePayload_round (q : RecordPayload) :
    parsePayload (payloadJson q) = some q := by
  simp only [payloadJson, parsePayload, payloadFields_all, if_true,
    af_payload_annotations, af_payload_description, af_payload_extensions,
    af_payload_locators, af_payload_name, af_payload_schemaVersion,
    af_payload_signature, af_payload_skills, af_payload_version,
    parseAnnF_round, parseStrF_round, parseExtensionsF_round,
    parseLocatorsF_round, parseOptStrF_round, parseSkillsF_round,
    Option.bind_eq_bind, Option.some_bind]
  rfl

/-- Helper: the canonical tree of a record is the protojson tree of the
record with its annotations sorted. -/
theorem canonicalTree_eq (r : Record) :
    CanonicalMarshalTree r = recordJson (normRecord r) := by
  cases r with
  | mk d =>
    cases d with
    | none =>
      simp [CanonicalMarshalTree, recordJson, normRecord, sortKeys,
        sortKeysPairs, List.insertionSort]
    | some rd =>
      cases rd with
      | v1 p =>
        show sortKeys (.obj [(kV1, payloadJson p)]) =
          .obj [(kV1, payloadJson (normAnnPayload p))]
        rw [sortKeys,
          show sortKeysPairs [(kV1, payloadJson p)] =
            [(kV1, sortKeys (payloadJson p))] from by simp [sortKeysPairs],
          sortKeys_payloadJson]
        simp [List.insertionSort, List.orderedInsert]
      | v2 p =>
        show sortKeys (.obj [(kV2, payloadJson p)]) =
          .obj [(kV2, payloadJson (normAnnPayload p))]
        rw [sortKeys,
          show sortKeysPairs [(kV2, payloadJson p)] =
            [(kV2, sortKeys (payloadJson p))] from by simp [sortKeysPairs],
          sortKeys_payloadJson]
        simp [List.insertionSort, List.orderedInsert]
      | v3 p =>
        show sortKeys (.obj [(kV3, payloadJson p)]) =
          .obj [(kV3, payloadJson (normAnnPayload p))]
        rw [sortKeys,
          show sortKeysPairs [(kV3, payloadJson p)] =
            [(kV3, sortKeys (payloadJson p))] from by simp [sortKeysPairs],
          sortKeys_payloadJson]
        simp [List.insertionSort, List.orderedInsert]

/-- Helper: unmarshaling the protojson tree of any record recovers that
record. -/
theorem canonicalUnmarshal_recordJson (r : Record) :
    CanonicalUnmarshal (recordJson r) = some r := by
  cases r with
  | mk d =>
    cases d with
    | none => rfl
    | some rd =>
      cases rd with
      | v1 p => simp [recordJson, CanonicalUnmarshal, parsePayload_round]
      | v2 p => simp [recordJson, CanonicalUnmarshal, parsePayload_round, kV1, kV2]
      | v3 p => simp [recordJson, CanonicalUnmarshal, parsePayload_round, kV1, kV2, kV3]

/-- Helper: normalizing a record twice is the same as normalizing once. -/
theorem normRecord_idem (r : Record) : normRecord (normRecord r) = normRecord r := by
  cases r with
  | mk d =>
    cases d with
    | none => rfl
    | some rd => cases rd <;> simp [normRecord, normAnnPayload_idem]

/-- C1: canonical marshal, unmarshal, marshal is byte-identical to the
first marshal.  The byte-level JSON parser is elided: unmarshaling is
applied to the canonical JSON tree, whose serialization is the canonical
byte string. -/
theorem c1_canonical_roundtrip :
    ∀ r : Record, ∃ r2 : Record,
      CanonicalUnmarshal (CanonicalMarshalTree r) = some r2 ∧
        CanonicalMarshal (some r2) = CanonicalMarshal (some r) := by
  intro r
  refine ⟨normRecord r, ?_, ?_⟩
  · rw [canonicalTree_eq, canonicalUnmarshal_recordJson]
  · show some (serialize (CanonicalMarshalTree (normRecord r))) =
      some (serialize (CanonicalMarshalTree r))
    rw [canonicalTree_eq (normRecord r), normRecord_idem, ← canonicalTree_eq r]

/-- Helper: serialization of a single-member object keyed `v<d>`. -/
theorem serialize_v_obj (d : Char) (X : Json) (hd : escapeChar d = [d]) :
    serialize (.obj [(['v', d], X)]) =
      obChar :: qChar :: 'v' :: d :: qChar :: ':' :: (serialize X ++ [cbChar]) := by
  rw [serialize]
  simp [serializePairs, joinComma, serializeStrLit, escapeStr, List.flatMap,
    hd, show escapeChar 'v' = ['v'] from by decide]

/-- Helper: serializations of single-member objects with distinct `v<d>`
keys differ. -/
theorem serialize_vtag_ne (d1 d2 : Char) (hne : d1 ≠ d2)
    (h1 : escapeChar d1 = [d1]) (h2 : escapeChar d2 = [d2]) (X Y : Json) :
    serialize (.obj [(['v', d1], X)]) ≠ serialize (.obj [(['v', d2], Y)]) := by
  rw [serialize_v_obj d1 X h1, serialize_v_obj d2 Y h2]
  intro heq
  injection heq with _ heq
  injection heq with _ heq
  injection heq with _ heq
  injection heq with hd _
  exact hne hd

/-- C8: two records with the same logical projection but distinct schema
variants have different canonical bytes, and therefore different CIDs for
any injective digest. -/
theorem c8_cross_variant_distinct :
    ∀ r1 r2 : Record,
      recordProjection r1 = recordProjection r2 →
      recordVariantTag r1 ≠ recordVariantTag r2 →
      serialize (CanonicalMarshalTree r1) ≠ serialize (CanonicalMarshalTree r2) ∧
        ∀ hash : GoStr → GoStr, Function.Injective hash →
          GetCidWith hash r1 ≠ GetCidWith hash r2 := by
  intro r1 r2 hproj htag
  have hser : serialize (CanonicalMarshalTree r1) ≠ serialize (CanonicalMarshalTree r2) := by
    cases r1 with
    | mk d1 =>
      cases r2 with
      | mk d2 =>
        cases d1 with
        | none =>
          cases d2 with
          | none => exact absurd rfl htag
          | some rd2 =>
            cases rd2 <;> simp [recordProjection] at hproj
        | some rd1 =>
          cases d2 with
          | none => cases rd1 <;> simp [recordProjection] at hproj
          | some rd2 =>
            cases rd1 with
            | v1 p1 =>
              cases rd2 with
              | v1 p2 => exact absurd rfl htag
              | v2 p2 =>
                rw [canonicalTree_eq, canonicalTree_eq]
                exact serialize_vtag_ne '1' '2' (by decide) (by decide) (by decide) _ _
              | v3 p2 =>
                rw [canonicalTree_eq, canonicalTree_eq]
                exact serialize_vtag_ne '1' '3' (by decide) (by decide) (by decide) _ _
            | v2 p1 =>
              cases rd2 with
              | v1 p2 =>
                rw [canonicalTree_eq, canonicalTree_eq]
                exact serialize_vtag_ne '2' '1' (by decide) (by decide) (by decide) _ _
              | v2 p2 => exact absurd rfl htag
              | v3 p2 =>
                rw [canonicalTree_eq, canonicalTree_eq]
                exact serialize_vtag_ne '2' '3' (by decide) (by decide) (by decide) _ _
            | v3 p1 =>
              cases rd2 with
              | v1 p2 =>
                rw [canonicalTree_eq, canonicalTree_eq]
                exact serialize_vtag_ne '3' '1' (by decide) (by decide) (by decide) _ _
              | v2 p2 =>
                rw [canonicalTree_eq, canonicalTree_eq]
                exact serialize_vtag_ne '3' '2' (by decide) (by decide) (by decide) _ _
              | v3 p2 => exact absurd rfl htag
  exact ⟨hser, fun hash hinj heq => hser (hinj heq)⟩

/-- Witness for C8 at two concrete records sharing a payload. -/
theorem c8_cross_variant_distinct_witness :
    serialize (CanonicalMarshalTree ⟨some (.v1 emptyPayload)⟩) ≠
      serialize (CanonicalMarshalTree ⟨some (.v3 emptyPayload)⟩) :=
  (c8_cross_variant_distinct ⟨some (.v1 emptyPayload)⟩ ⟨some (.v3 emptyPayload)⟩
    rfl (by decide)).1

end DirSpec
